import Mathlib

/-!
# askpw: argument parsing, entry resolution and dispatch

A shallow embedding of `askpw.go`.  Go strings are modelled as lists of
Unicode code points (`Str`), i.e. as valid UTF-8 text; every prefix and
separator the program tests for is ASCII, so prefix tests and splitting on
`=` agree with the byte-level operations of the Go library on such text.

The closures `noop`, `pass` and `proc` of `parse` and the mutable variable
`visitor` become an explicit visitor state threaded through a left fold.
The outside world (`os.Args`, the environment, standard input, the
executable search path and the subprocess) is an explicit `World` value and
the observable effects of `main` are collected in a trace of `Event`s.
The variable `DEBUG` is `false` and never assigned, so the calls of `debug`
have no effect and are left out.
-/

namespace Askpw

/-- Go strings: sequences of code points. -/
abbrev Str := List Char

/-- Go `error` values, identified by their message. -/
abbrev error := String

/-! ## Library functions used by the program -/

/-- Go `strings.HasPrefix(s, p)`. -/
def HasPrefix (s p : Str) : Bool := p.isPrefixOf s

/-- Cut `s` after the first occurrence of `sep`: the piece up to and
including `sep`, and the remainder; `none` when `sep` does not occur. -/
def cutAfter (sep : Char) : Str → Option (Str × Str)
  | [] => none
  | c :: cs =>
    if c = sep then some ([c], cs)
    else match cutAfter sep cs with
      | none => none
      | some (a, r) => some (c :: a, r)

/-- The loop of Go `genSplit` with `sepSave = len(sep)`: at most `k` cuts,
then the unsplit remainder. -/
def splitLoop (sep : Char) : Nat → Str → List Str
  | 0, s => [s]
  | k + 1, s =>
    match cutAfter sep s with
    | none => [s]
    | some (a, r) => a :: splitLoop sep k r

/-- Go `strings.SplitAfterN(s, sep, n)` for a one-character separator and
`n ≥ 0`: `n = 0` gives no pieces, and `n` is capped at `len(s) + 1`. -/
def SplitAfterN (s : Str) (sep : Char) (n : Nat) : List Str :=
  match n with
  | 0 => []
  | k + 1 => splitLoop sep (min k s.length) s

/-- Go `unicode.IsSpace`. -/
def IsSpace (c : Char) : Bool :=
  let r := c.toNat
  (0x09 ≤ r && r ≤ 0x0d) || r == 0x20 || r == 0x85 || r == 0xa0 || r == 0x1680 ||
  (0x2000 ≤ r && r ≤ 0x200a) || r == 0x2028 || r == 0x2029 || r == 0x202f ||
  r == 0x205f || r == 0x3000

/-- Go `bytes.TrimSpace` on valid UTF-8 text: drop leading and trailing
white space. -/
def TrimSpace (data : Str) : Str :=
  ((data.dropWhile IsSpace).reverse.dropWhile IsSpace).reverse

/-- Go `(*bufio.Reader).ReadBytes(delim)` on a fresh reader over the given
input: the bytes up to and including the first `delim`, or everything read
together with the error `EOF` when the input ends first. -/
def ReadBytes : Str → Char → Str × Option error
  | [], _ => ([], some "EOF")
  | c :: cs, delim =>
    if c = delim then ([c], none)
    else ((c :: (ReadBytes cs delim).1), (ReadBytes cs delim).2)

/-! ## Constants -/

def PWSAFE_BIN : Str := "pwsafe".toList
def ASKPW_ENV : Str := "ASKPW_ENTRY".toList
def PROMPT_TEXT : Str := "Which entry to select (blank to skip): ".toList
def VERSION : Str := "1.1.2".toList

def USAGE : Str :=
  ("askpw [OPTION]...\nPrompt for the entry key to read from a password manager.\n\n" ++
   "    --bin=PATH              the absolute path to the invoked binary\n" ++
   "    --entry=NAME            this will not ask for the entry via prompt\n" ++
   "    --stderr                ask for the entry key on stderr\n" ++
   "    --version               display the askpw version and exit\n" ++
   "    --help                  display the usage/help message and exit\n" ++
   "Alternatively the entry can also be set via the environment (").toList ++ ASKPW_ENV ++
  ")\nThe default command is ".toList ++ PWSAFE_BIN

def ACTION_COMMAND : Int := 0
def ACTION_VERSION : Int := 1
def ACTION_HELP : Int := 2

/-! ## Data model -/

structure flag where
  long : Str
  short : Str
  valued : Bool
deriving DecidableEq, Repr

structure arguments where
  action : Int
  err : Bool
  bin : Str
  entry : Str
  pass : List Str
deriving DecidableEq, Repr

def ARG_BIN : flag := ⟨"bin".toList, "b".toList, true⟩
def ARG_ENTRY : flag := ⟨"entry".toList, "e".toList, true⟩
def ARG_ERROR : flag := ⟨"stderr".toList, "2".toList, false⟩
def ARG_VERSION : flag := ⟨"version".toList, "v".toList, false⟩
def ARG_HELPALT : flag := ⟨"help".toList, "?".toList, false⟩
def ARG_HELP : flag := ⟨"help".toList, "h".toList, false⟩

def arguments.append (a : arguments) (value : Str) : arguments :=
  { a with pass := a.pass ++ [value] }

def flag.matches (f : flag) (value : Str) : Bool :=
  let l := "--".toList ++ f.long
  let s := "-".toList ++ f.short
  if f.valued then
    HasPrefix value l || HasPrefix value s
  else
    value == l || value == s

def flag.value (_f : flag) (value : Str) : Str × Bool :=
  let parts := SplitAfterN value '=' 2
  if parts.length > 1 && (parts.getD 1 []).length > 0 then
    (parts.getD 1 [], true)
  else
    ([], false)

/-- The function `replace`: overwrite `value` by `argv[index]` when that
element exists and is non-empty. -/
def replace (value : Str) (argv : List Str) (index : Nat) : Str :=
  if argv.length > index && (argv.getD index []).length > 0 then
    argv.getD index []
  else
    value

/-! ## The argument parser -/

/-- The three closures the variable `visitor` of `parse` can hold. -/
inductive Visitor where
  | proc
  | pass
  | noop
deriving DecidableEq, Repr

/-- The closure `noop`. -/
def noop (args : arguments) (_arg : Str) : arguments := args

/-- The closure `pass`. -/
def pass (args : arguments) (arg : Str) : arguments := args.append arg

/-- The closure `proc`: the new value of `visitor` and of `*args`. -/
def proc (args : arguments) (arg : Str) : Visitor × arguments :=
  let param := SplitAfterN arg '=' 2
  if "--".toList = arg then
    (Visitor.pass, args)
  else if ARG_VERSION.matches arg then
    (Visitor.noop, { args with action := ACTION_VERSION })
  else if ARG_HELPALT.matches arg then
    (Visitor.noop, { args with action := ACTION_HELP })
  else if ARG_HELP.matches arg then
    (Visitor.noop, { args with action := ACTION_HELP })
  else if ARG_ERROR.matches arg then
    (Visitor.proc, { args with err := true })
  else if ARG_BIN.matches arg then
    (Visitor.proc, { args with bin := replace args.bin param 1 })
  else if ARG_ENTRY.matches arg then
    (Visitor.proc, { args with entry := replace args.entry param 1 })
  else
    (Visitor.proc, pass args arg)

/-- One iteration of the loop of `parse`: call the current visitor. -/
def visit (st : Visitor × arguments) (arg : Str) : Visitor × arguments :=
  match st.1 with
  | Visitor.proc => proc st.2 arg
  | Visitor.pass => (Visitor.pass, pass st.2 arg)
  | Visitor.noop => (Visitor.noop, noop st.2 arg)

/-- The function `parse`: the final `*args` and the returned error. -/
def parse (cmd : List Str) (args : arguments) : arguments × Option error :=
  ((cmd.foldl visit (Visitor.proc, { args with action := ACTION_COMMAND })).2, none)

/-! ## Entry resolution, executable resolution and invocation -/

/-- Observable effects of a run, in program order. -/
inductive Event where
  /-- Text written to standard output. -/
  | stdout (text : Str)
  /-- Text written to standard error. -/
  | stderr (text : Str)
  /-- A line is read from standard input. -/
  | readStdin
  /-- The search path is asked for an executable (`exec.LookPath`). -/
  | lookPath (name : Str)
  /-- A subprocess is started with the given argument vector. -/
  | exec (path : Str) (argv : List Str)
deriving DecidableEq, Repr

/-- The environment of one run of the program. -/
structure World where
  /-- Value of `os.Args`. -/
  Args : List Str
  /-- Function `os.Getenv`: the empty string for an unset variable. -/
  Getenv : Str → Str
  /-- Content of standard input up to its end. -/
  Stdin : Str
  /-- Function `exec.LookPath`: the path found, or `none` on failure. -/
  LookPath : Str → Option Str
  /-- Outcome of `cmd.Run()` for a path and argument vector: `none` when
  the subprocess started and exited with status zero. -/
  Run : Str → List Str → Option error

/-- The function `readln`. -/
def readln (stdin : Str) : Str × Option error :=
  match ReadBytes stdin '\n' with
  | (data, none) => (TrimSpace data, none)
  | (_, some err) => ([], some err)

/-- The function `prompt`: the pair it returns and the effects it has. -/
def prompt (current : Str) (stderr : Bool) (stdin : Str) :
    (Str × Option error) × List Event :=
  if current.length = 0 then
    if stderr then
      (readln stdin, [Event.stderr PROMPT_TEXT, Event.readStdin])
    else
      (readln stdin, [Event.stderr PROMPT_TEXT, Event.readStdin])
  else
    ((current, none), [])

/-- The function `resolve`. -/
def resolve (w : World) (value : Str) : (Str × Option error) × List Event :=
  match w.LookPath value with
  | none => (([], some ("Unable to resolve " ++ String.mk value)), [Event.lookPath value])
  | some path => ((path, none), [Event.lookPath value])

/-- The function `run`. -/
def run (w : World) (data : arguments) : Option error × List Event :=
  let arg : List Str := data.pass ++ [data.entry]
  match w.Run data.bin arg with
  | some _ => (some (String.mk data.bin ++ " did not exit successfully"), [Event.exec data.bin arg])
  | none => (none, [Event.exec data.bin arg])

/-- The function `version`. -/
def version : List Event := [Event.stdout ("askpw ".toList ++ VERSION ++ "\n".toList)]

/-- The function `help`. -/
def help : List Event := [Event.stdout (USAGE ++ "\n".toList)]

/-- The function `warn`. -/
def warn (message : String) (err : error) : List Event :=
  [Event.stdout (message.toList ++ " ".toList ++ err.toList ++ "\n".toList)]

/-- The variable `args` of `main` when `parse` is called: the zero value
with `args.bin = PWSAFE_BIN`. -/
def startArgs : arguments :=
  { action := 0, err := false, bin := PWSAFE_BIN, entry := [], pass := [] }

/-- The environment fallback of `main`: an empty `args.entry` is replaced
by `os.Getenv(ASKPW_ENV)`. -/
def envEntry (w : World) (args : arguments) : arguments :=
  if args.entry.length = 0 then { args with entry := w.Getenv ASKPW_ENV } else args

/-- The function `main`: the exit code and the trace of effects. -/
def main (w : World) : Int × List Event :=
  let parsed : arguments × Option error :=
    if w.Args.length = 0 then (startArgs, none) else parse (w.Args.drop 1) startArgs
  match parsed.2 with
  | some err => (9, warn "Unable to parse command line:" err)
  | none =>
    let args := parsed.1
    if ACTION_VERSION = args.action then (0, version)
    else if ACTION_HELP = args.action then (0, help)
    else
      let args := envEntry w args
      let asked := prompt args.entry args.err w.Stdin
      match asked.1 with
      | (_, some err) => (3, asked.2 ++ warn "Invalid password entry:" err)
      | (entry, none) =>
        if entry.length = 0 then (0, asked.2)
        else
          let args : arguments := { args with entry := entry }
          let found := resolve w args.bin
          match found.1 with
          | (_, some err) => (4, asked.2 ++ found.2 ++ warn "Invalid manager command:" err)
          | (path, none) =>
            let args : arguments := { args with bin := path }
            let ran := run w args
            match ran.1 with
            | some err => (1, asked.2 ++ found.2 ++ ran.2 ++ warn "Password manager error:" err)
            | none => (0, asked.2 ++ found.2 ++ ran.2)

/-! ## Notions used to state the properties -/

/-- The tokens that make the program print its version or usage. -/
def exitTokens : List Str :=
  ["--version".toList, "-v".toList, "--help".toList, "-h".toList, "-?".toList]

/-- The tokens that end flag dispatch: the bare `--` and the version and
help tokens. -/
def stopTokens : List Str := "--".toList :: exitTokens

/-- Whether token `t` starts with the text `p`. -/
def startsWith (p : String) (t : Str) : Bool := p.toList.isPrefixOf t

/-- Text of a token after its first `=` (empty when there is no `=`). -/
def afterEq (t : Str) : Str := (t.dropWhile (fun c => c != '=')).drop 1

/-- Value of an override field after the dispatching visitor has seen
`tokens`: every token the flag matches is offered to `replace` in turn. -/
def overridden (f : flag) (init : Str) (tokens : List Str) : Str :=
  (tokens.filter f.matches).foldl (fun cur t => replace cur (SplitAfterN t '=' 2) 1) init

/-- The tokens none of the stderr, bin and entry flags matches. -/
def unmatched (tokens : List Str) : List Str :=
  tokens.filter
    (fun t => !(ARG_ERROR.matches t) && !(ARG_BIN.matches t) && !(ARG_ENTRY.matches t))

/-- State of `*args` after the dispatching visitor has seen `tokens`, none
of which ends dispatch. -/
def dispatched (a : arguments) (tokens : List Str) : arguments :=
  { action := a.action
    err := a.err || tokens.any ARG_ERROR.matches
    bin := overridden ARG_BIN a.bin tokens
    entry := overridden ARG_ENTRY a.entry tokens
    pass := a.pass ++ unmatched tokens }

/-- A search path on which every name is found under `/usr/bin/`. -/
def findAll (name : Str) : Option Str := some ("/usr/bin/".toList ++ name)

/-- A run with the given tokens and standard input, the environment
variable unset, every executable found and the subprocess succeeding. -/
def sampleWorld (tokens : List Str) (stdin : Str) : World :=
  { Args := "askpw".toList :: tokens
    Getenv := fun _ => []
    Stdin := stdin
    LookPath := findAll
    Run := fun _ _ => none }

/-- The tokens the dispatching visitor sees: those before the first token
that ends dispatch. -/
def dispatchedTokens (tokens : List Str) : List Str :=
  tokens.takeWhile (fun t => decide (t ∉ stopTokens))

/-- The value after the first `=` of the last candidate, or `init` when
there is no candidate. -/
def lastValue (init : Str) (cands : List Str) : Str :=
  match cands.getLast? with
  | none => init
  | some t => afterEq t

/-- Whether a token has one of the documented flag forms: `--stderr`, `-2`,
or one of `--bin`, `-b`, `--entry`, `-e` either bare or immediately followed
by `=` and a value. -/
def documentedForm (t : Str) : Bool :=
  t == "--stderr".toList || t == "-2".toList ||
  ["--bin", "-b", "--entry", "-e"].any
    (fun f => t == f.toList || startsWith (f ++ "=") t)

/-- The six recognised flags. -/
def recognisedFlags : List flag :=
  [ARG_BIN, ARG_ENTRY, ARG_ERROR, ARG_VERSION, ARG_HELPALT, ARG_HELP]

/-- The tokens a case of the switch in `proc` tests by equality. -/
def exactTokens : List Str :=
  ["--".toList, "--version".toList, "-v".toList, "--help".toList, "-?".toList, "-h".toList,
    "--stderr".toList, "-2".toList]

/-- The flag effects of the dispatching visitor: the bare `--`, the version
flag, a help flag, the stderr flag, the bin flag and the entry flag. -/
inductive Effect where
  | dashes
  | version
  | help
  | stderr
  | bin
  | entry
deriving DecidableEq, Repr

/-- Whether an effect applies to a token: the test of its case in `proc`. -/
def Effect.test : Effect → Str → Bool
  | Effect.dashes, arg => decide ("--".toList = arg)
  | Effect.version, arg => ARG_VERSION.matches arg
  | Effect.help, arg => ARG_HELPALT.matches arg || ARG_HELP.matches arg
  | Effect.stderr, arg => ARG_ERROR.matches arg
  | Effect.bin, arg => ARG_BIN.matches arg
  | Effect.entry, arg => ARG_ENTRY.matches arg

/-- What an effect does: the body of its case in `proc`. -/
def Effect.body : Effect → arguments → Str → Visitor × arguments
  | Effect.dashes, args, _ => (Visitor.pass, args)
  | Effect.version, args, _ => (Visitor.noop, { args with action := ACTION_VERSION })
  | Effect.help, args, _ => (Visitor.noop, { args with action := ACTION_HELP })
  | Effect.stderr, args, _ => (Visitor.proc, { args with err := true })
  | Effect.bin, args, arg =>
    (Visitor.proc, { args with bin := replace args.bin (SplitAfterN arg '=' 2) 1 })
  | Effect.entry, args, arg =>
    (Visitor.proc, { args with entry := replace args.entry (SplitAfterN arg '=' 2) 1 })

/-- The priority order in which `proc` tests the effects. -/
def sourceOrder : List Effect :=
  [Effect.dashes, Effect.version, Effect.help, Effect.stderr, Effect.bin, Effect.entry]

/-- A dispatching visitor that tests the effects in the given priority
order: the first effect that applies is carried out, and a token to which
none applies is forwarded. -/
def procIn (order : List Effect) (args : arguments) (arg : Str) : Visitor × arguments :=
  match order.find? (fun e => e.test arg) with
  | some e => e.body args arg
  | none => (Visitor.proc, pass args arg)

/-- The loop body of `parse` with `procIn order` as dispatching visitor. -/
def visitIn (order : List Effect) (st : Visitor × arguments) (arg : Str) :
    Visitor × arguments :=
  match st.1 with
  | Visitor.proc => procIn order st.2 arg
  | Visitor.pass => (Visitor.pass, pass st.2 arg)
  | Visitor.noop => (Visitor.noop, noop st.2 arg)

/-- The function `parse` with `procIn order` as dispatching visitor. -/
def parseIn (order : List Effect) (cmd : List Str) (args : arguments) :
    arguments × Option error :=
  ((cmd.foldl (visitIn order) (Visitor.proc, { args with action := ACTION_COMMAND })).2, none)

/-- Whether no flag form applies to a token: it is not `--stderr` or `-2`
and does not start with `--bin`, `-b`, `--entry` or `-e`. -/
def noFlagForm (t : Str) : Bool :=
  t != "--stderr".toList && t != "-2".toList && !startsWith "--bin" t && !startsWith "-b" t &&
    !startsWith "--entry" t && !startsWith "-e" t

/-! ## Lemmas on the flag grammar and the visitor loop -/

theorem version_matches_iff (t : Str) :
    ARG_VERSION.matches t = true ↔ t = "--version".toList ∨ t = "-v".toList := by
  simp [flag.matches, ARG_VERSION]

theorem helpalt_matches_iff (t : Str) :
    ARG_HELPALT.matches t = true ↔ t = "--help".toList ∨ t = "-?".toList := by
  simp [flag.matches, ARG_HELPALT]

theorem help_matches_iff (t : Str) :
    ARG_HELP.matches t = true ↔ t = "--help".toList ∨ t = "-h".toList := by
  simp [flag.matches, ARG_HELP]

theorem error_matches_iff (t : Str) :
    ARG_ERROR.matches t = true ↔ t = "--stderr".toList ∨ t = "-2".toList := by
  simp [flag.matches, ARG_ERROR]

theorem bin_matches_iff (t : Str) :
    ARG_BIN.matches t = true ↔ "--bin".toList <+: t ∨ "-b".toList <+: t := by
  simp [flag.matches, ARG_BIN, HasPrefix]

theorem entry_matches_iff (t : Str) :
    ARG_ENTRY.matches t = true ↔ "--entry".toList <+: t ∨ "-e".toList <+: t := by
  simp [flag.matches, ARG_ENTRY, HasPrefix]

theorem mem_stopTokens_iff (t : Str) :
    t ∈ stopTokens ↔ "--".toList = t ∨ ARG_VERSION.matches t = true ∨
      ARG_HELPALT.matches t = true ∨ ARG_HELP.matches t = true := by
  rw [version_matches_iff, helpalt_matches_iff, help_matches_iff]
  simp [stopTokens, exitTokens]
  constructor
  · rintro (h | h | h | h | h | h) <;> simp [h]
  · rintro (h | (h | h) | (h | h) | (h | h)) <;> simp [h]


theorem cutAfter_eq (t : Str) :
    (cutAfter '=' t = none ∧ afterEq t = []) ∨ ∃ a, cutAfter '=' t = some (a, afterEq t) := by
  induction t with
  | nil => left; simp [cutAfter, afterEq]
  | cons c cs ih =>
    by_cases hc : c = '='
    · right; exact ⟨[c], by simp [cutAfter, afterEq, hc]⟩
    · rcases ih with ⟨h1, h2⟩ | ⟨a, h⟩
      · left
        refine ⟨by simp [cutAfter, hc, h1], ?_⟩
        simpa [afterEq, hc] using h2
      · right
        refine ⟨c :: a, ?_⟩
        have : afterEq (c :: cs) = afterEq cs := by simp [afterEq, hc]
        simp [cutAfter, hc, h, this]

theorem replace_split (cur t : Str) :
    replace cur (SplitAfterN t '=' 2) 1 = if afterEq t = [] then cur else afterEq t := by
  cases t with
  | nil => simp [SplitAfterN, splitLoop, replace, afterEq]
  | cons c cs =>
    have hmin : min 1 (c :: cs).length = 1 := by simp
    rcases cutAfter_eq (c :: cs) with ⟨h1, h2⟩ | ⟨a, h⟩
    · simp [SplitAfterN, hmin, splitLoop, h1, replace, h2]
    · simp only [SplitAfterN, hmin, splitLoop, h, replace]
      by_cases he : afterEq (c :: cs) = []
      · simp [he]
      · have : 0 < (afterEq (c :: cs)).length := List.length_pos.mpr he
        simp [he, this]

theorem bin_not_error (t : Str) (h : ARG_BIN.matches t = true) : ARG_ERROR.matches t = false := by
  rw [bin_matches_iff] at h
  rw [Bool.eq_false_iff, Ne, error_matches_iff]
  rintro (rfl | rfl) <;> revert h <;> decide

theorem entry_not_error (t : Str) (h : ARG_ENTRY.matches t = true) :
    ARG_ERROR.matches t = false := by
  rw [entry_matches_iff] at h
  rw [Bool.eq_false_iff, Ne, error_matches_iff]
  rintro (rfl | rfl) <;> revert h <;> decide

theorem entry_not_bin (t : Str) (h : ARG_ENTRY.matches t = true) :
    ARG_BIN.matches t = false := by
  rw [entry_matches_iff] at h
  rw [Bool.eq_false_iff, Ne, bin_matches_iff]
  rcases h with ⟨r, rfl⟩ | ⟨r, rfl⟩ <;> simp [List.prefix_iff_eq_append]


theorem foldl_visit_pass (post : List Str) (a : arguments) :
    post.foldl visit (Visitor.pass, a) = (Visitor.pass, { a with pass := a.pass ++ post }) := by
  induction post generalizing a with
  | nil => simp
  | cons t ts ih => simp [List.foldl_cons, visit, pass, arguments.append, ih]

theorem foldl_visit_noop (post : List Str) (a : arguments) :
    post.foldl visit (Visitor.noop, a) = (Visitor.noop, a) := by
  induction post generalizing a with
  | nil => simp
  | cons t ts ih => simp [List.foldl_cons, visit, noop, ih]

theorem proc_of_not_stop (a : arguments) (t : Str) (h : t ∉ stopTokens) :
    proc a t = (Visitor.proc, dispatched a [t]) := by
  rw [mem_stopTokens_iff] at h
  simp only [not_or] at h
  obtain ⟨h0, h1, h2, h3⟩ := h
  simp only [proc, if_neg h0, if_neg h1, if_neg h2, if_neg h3]
  by_cases he : ARG_ERROR.matches t = true
  · have hb : ARG_BIN.matches t = false := by
      by_contra hb; simp at hb; simp [bin_not_error t hb] at he
    have hn : ARG_ENTRY.matches t = false := by
      by_contra hn; simp at hn; simp [entry_not_error t hn] at he
    simp [he, dispatched, overridden, unmatched, hb, hn]
  · by_cases hb : ARG_BIN.matches t = true
    · have hn : ARG_ENTRY.matches t = false := by
        by_contra hn; simp at hn; simp [entry_not_bin t hn] at hb
      simp [he, dispatched, overridden, unmatched, hb, hn]
    · by_cases hn : ARG_ENTRY.matches t = true
      · simp [he, dispatched, overridden, unmatched, hb, hn]
      · simp [he, dispatched, overridden, unmatched, hb, hn, pass, arguments.append]

theorem dispatched_cons (a : arguments) (t : Str) (ts : List Str) :
    dispatched (dispatched a [t]) ts = dispatched a (t :: ts) := by
  simp only [dispatched, overridden, unmatched, arguments.mk.injEq]
  refine ⟨trivial, ?_, ?_, ?_, ?_⟩
  · simp [Bool.or_assoc]
  · by_cases hb : ARG_BIN.matches t = true <;> simp [List.filter_cons, hb]
  · by_cases hb : ARG_ENTRY.matches t = true <;> simp [List.filter_cons, hb]
  · rw [List.append_assoc, ← List.filter_append]; rfl

theorem foldl_visit_proc (tokens : List Str) (a : arguments)
    (h : ∀ t ∈ tokens, t ∉ stopTokens) :
    tokens.foldl visit (Visitor.proc, a) = (Visitor.proc, dispatched a tokens) := by
  induction tokens generalizing a with
  | nil => simp [dispatched, overridden, unmatched]
  | cons t ts ih =>
    have ht : t ∉ stopTokens := h t (List.mem_cons_self _ _)
    have hts : ∀ u ∈ ts, u ∉ stopTokens := fun u hu => h u (List.mem_cons_of_mem _ hu)
    rw [List.foldl_cons]
    have : visit (Visitor.proc, a) t = proc a t := rfl
    rw [this, proc_of_not_stop a t ht, ih _ hts, dispatched_cons]

/-- Tokens before the first one that ends dispatch. -/
theorem stop_split (tokens : List Str) :
    (∀ t ∈ tokens, t ∉ stopTokens) ∨
    ∃ pre s post, tokens = pre ++ s :: post ∧ (∀ t ∈ pre, t ∉ stopTokens) ∧ s ∈ stopTokens ∧
      pre = tokens.takeWhile (fun t => decide (t ∉ stopTokens)) := by
  induction tokens with
  | nil => left; simp
  | cons t ts ih =>
    by_cases ht : t ∈ stopTokens
    · right; exact ⟨[], t, ts, by simp, by simp, ht, by simp [List.takeWhile_cons, ht]⟩
    · rcases ih with h | ⟨pre, s, post, h1, h2, h3, h4⟩
      · left
        intro u hu
        rcases List.mem_cons.mp hu with rfl | hu
        · exact ht
        · exact h u hu
      · right
        refine ⟨t :: pre, s, post, by simp [h1], ?_, h3, ?_⟩
        · intro u hu
          rcases List.mem_cons.mp hu with rfl | hu
          · exact ht
          · exact h2 u hu
        · rw [h4]; simp [List.takeWhile_cons, ht]

theorem proc_stop (a : arguments) (s : Str) (hs : s ∈ stopTokens) :
    proc a s =
      if s = "--".toList then (Visitor.pass, a)
      else if s = "--version".toList ∨ s = "-v".toList then
        (Visitor.noop, { a with action := ACTION_VERSION })
      else (Visitor.noop, { a with action := ACTION_HELP }) := by
  simp only [stopTokens, exitTokens, List.mem_cons, List.mem_singleton] at hs
  rcases hs with rfl | rfl | rfl | rfl | rfl | rfl | hs
  · rfl
  · rfl
  · rfl
  · rfl
  · rfl
  · rfl
  · simp at hs

theorem foldl_visit_stop (pre : List Str) (s : Str) (post : List Str) (a : arguments)
    (hpre : ∀ t ∈ pre, t ∉ stopTokens) (hs : s ∈ stopTokens) :
    (pre ++ s :: post).foldl visit (Visitor.proc, a) =
      if s = "--".toList then
        (Visitor.pass, { dispatched a pre with pass := (dispatched a pre).pass ++ post })
      else if s = "--version".toList ∨ s = "-v".toList then
        (Visitor.noop, { dispatched a pre with action := ACTION_VERSION })
      else (Visitor.noop, { dispatched a pre with action := ACTION_HELP }) := by
  rw [List.foldl_append, foldl_visit_proc pre a hpre, List.foldl_cons]
  have : visit (Visitor.proc, dispatched a pre) s = proc (dispatched a pre) s := rfl
  rw [this, proc_stop _ s hs]
  by_cases h0 : s = "--".toList
  · simp only [if_pos h0, foldl_visit_pass]
  · by_cases h1 : s = "--version".toList ∨ s = "-v".toList
    · simp only [if_neg h0, if_pos h1, foldl_visit_noop]
    · simp only [if_neg h0, if_neg h1, foldl_visit_noop]


theorem main_parsed (w : World) :
    (if w.Args.length = 0 then (startArgs, none) else parse (w.Args.drop 1) startArgs) =
      parse (w.Args.drop 1) startArgs := by
  split
  · next h => rw [List.length_eq_zero.mp h]; rfl
  · rfl

theorem parse_pass_sublist (tokens : List Str) (a : arguments) (ha : a.pass = []) :
    (parse tokens a).1.pass.Sublist tokens := by
  simp only [parse]
  rcases stop_split tokens with h | ⟨pre, s, post, h1, h2, h3, -⟩
  · rw [foldl_visit_proc tokens _ h]
    simp [dispatched, ha, unmatched]
  · rw [h1, foldl_visit_stop pre s post _ h2 h3]
    have hf : (unmatched pre).Sublist pre := List.filter_sublist _
    split_ifs
    · simpa [dispatched, ha] using hf.append (List.sublist_cons_self s post)
    · simpa [dispatched, ha] using hf.trans (List.sublist_append_left pre (s :: post))
    · simpa [dispatched, ha] using hf.trans (List.sublist_append_left pre (s :: post))


theorem envEntry_fields (w : World) (a : arguments) :
    (envEntry w a).action = a.action ∧ (envEntry w a).err = a.err ∧
    (envEntry w a).bin = a.bin ∧ (envEntry w a).pass = a.pass := by
  unfold envEntry; split <;> simp

/-- The seven ways a run of `main` can go. -/
theorem main_cases (w : World) :
    let a := (parse (w.Args.drop 1) startArgs).1
    let q := prompt (envEntry w a).entry a.err w.Stdin
    (a.action = ACTION_VERSION ∧ main w = (0, version)) ∨
    (a.action = ACTION_HELP ∧ main w = (0, help)) ∨
    (a.action ≠ ACTION_VERSION ∧ a.action ≠ ACTION_HELP ∧
      ((∃ data err, q.1 = (data, some err) ∧
          main w = (3, q.2 ++ warn "Invalid password entry:" err)) ∨
       (q.1 = ([], none) ∧ main w = (0, q.2)) ∨
       (∃ entry, q.1 = (entry, none) ∧ entry ≠ [] ∧
         ((w.LookPath a.bin = none ∧
            main w = (4, q.2 ++ [Event.lookPath a.bin] ++
              warn "Invalid manager command:" ("Unable to resolve " ++ String.mk a.bin))) ∨
          (∃ path, w.LookPath a.bin = some path ∧
            ((∃ err, w.Run path (a.pass ++ [entry]) = some err ∧
                main w = (1, q.2 ++ [Event.lookPath a.bin] ++
                  [Event.exec path (a.pass ++ [entry])] ++
                  warn "Password manager error:"
                    (String.mk path ++ " did not exit successfully"))) ∨
             (w.Run path (a.pass ++ [entry]) = none ∧
                main w = (0, q.2 ++ [Event.lookPath a.bin] ++
                  [Event.exec path (a.pass ++ [entry])])))))))) := by
  intro a q
  obtain ⟨-, he, hb, hps⟩ := envEntry_fields w a
  obtain ⟨r, hm⟩ : ∃ r, r = main w := ⟨_, rfl⟩
  rw [← hm]
  unfold main at hm
  rw [main_parsed] at hm
  have hp2 : (parse (w.Args.drop 1) startArgs).2 = none := rfl
  simp only [hp2] at hm
  by_cases h1 : ACTION_VERSION = a.action
  · left; exact ⟨h1.symm, by rw [hm, if_pos h1]⟩
  · by_cases h2 : ACTION_HELP = a.action
    · right; left; exact ⟨h2.symm, by rw [hm, if_neg h1, if_pos h2]⟩
    · right; right
      refine ⟨fun h => h1 h.symm, fun h => h2 h.symm, ?_⟩
      rw [if_neg h1, if_neg h2, he, hb, hps] at hm
      change r = (match q.1 with
        | (_, some err) => _
        | (entry, none) => _) at hm
      rcases hq : q.1 with ⟨entry, _ | err⟩
      · rw [hq] at hm
        simp only at hm
        by_cases hl : entry.length = 0
        · right; left
          have : entry = [] := List.length_eq_zero.mp hl
          subst this
          exact ⟨rfl, by rw [hm]; simp [-List.drop_one]⟩
        · right; right
          refine ⟨entry, rfl, fun h => hl (by simp [h]), ?_⟩
          rw [if_neg hl] at hm
          unfold resolve at hm
          rcases hlp : w.LookPath a.bin with _ | path
          · left
            refine ⟨rfl, ?_⟩
            rw [hm]; simp [hlp, -List.drop_one]
          · right
            refine ⟨path, rfl, ?_⟩
            simp only [hlp, run] at hm
            rcases hr : w.Run path (a.pass ++ [entry]) with _ | err
            · right
              refine ⟨rfl, ?_⟩
              rw [hm]; simp [hr, -List.drop_one]
            · left
              refine ⟨err, rfl, ?_⟩
              rw [hm]; simp [hr, -List.drop_one]
      · left
        refine ⟨entry, err, rfl, ?_⟩
        rw [hm, hq]

theorem prompt_events (current : Str) (stderr : Bool) (stdin : Str) :
    ∀ ev ∈ (prompt current stderr stdin).2, ev = Event.stderr PROMPT_TEXT ∨ ev = Event.readStdin := by
  intro ev hev
  unfold prompt at hev
  split_ifs at hev <;> simp at hev <;> simp [hev]

theorem ReadBytes_eq (s : Str) (d : Char) :
    ReadBytes s d =
      if d ∈ s then (s.takeWhile (fun c => c != d) ++ [d], none) else (s, some "EOF") := by
  induction s with
  | nil => simp [ReadBytes]
  | cons c cs ih =>
    by_cases hc : c = d
    · subst hc; simp [ReadBytes]
    · have hd : ¬ d = c := fun h => hc h.symm
      by_cases hm : d ∈ cs
      · simp [ReadBytes, hc, hd, ih, hm, List.takeWhile_cons]
      · simp [ReadBytes, hc, hd, ih, hm]

theorem dropWhile_append_space (l : Str) (c : Char) (hc : IsSpace c = true) :
    (l ++ [c]).dropWhile IsSpace =
      if l.dropWhile IsSpace = [] then [] else l.dropWhile IsSpace ++ [c] := by
  induction l with
  | nil => simp [List.dropWhile_cons, hc]
  | cons x xs ih =>
    by_cases hx : IsSpace x = true
    · simp only [List.cons_append, List.dropWhile_cons, hx, if_true]
      exact ih
    · simp [List.dropWhile_cons, hx]

theorem TrimSpace_append_space (l : Str) (c : Char) (hc : IsSpace c = true) :
    TrimSpace (l ++ [c]) = TrimSpace l := by
  unfold TrimSpace
  rw [dropWhile_append_space l c hc]
  split_ifs with h
  · simp [h]
  · simp [List.dropWhile_cons, hc]

theorem readln_eq (stdin : Str) :
    readln stdin =
      if '\n' ∈ stdin then (TrimSpace (stdin.takeWhile (fun c => c != '\n')), none)
      else ([], some "EOF") := by
  unfold readln
  rw [ReadBytes_eq]
  split_ifs with h
  · simp only
    rw [TrimSpace_append_space _ _ (by decide)]
  · rfl

/-- Entry resolution as `main` performs it: the override, else the
environment value, else the trimmed first line of standard input. -/
theorem prompt_envEntry (w : World) (args : arguments) :
    prompt (envEntry w args).entry (envEntry w args).err w.Stdin =
      (if args.entry ≠ [] then ((args.entry, none), [])
       else if w.Getenv ASKPW_ENV ≠ [] then ((w.Getenv ASKPW_ENV, none), [])
       else if '\n' ∈ w.Stdin then
         ((TrimSpace (w.Stdin.takeWhile (fun c => c != '\n')), none),
           [Event.stderr PROMPT_TEXT, Event.readStdin])
       else (([], some "EOF"), [Event.stderr PROMPT_TEXT, Event.readStdin])) := by
  by_cases ho : args.entry = []
  · by_cases he : w.Getenv ASKPW_ENV = []
    · have h1 : (envEntry w args).entry = [] := by simp [envEntry, ho, he]
      simp only [h1, prompt, ho, he, readln_eq]
      split_ifs <;> simp_all
    · have h1 : (envEntry w args).entry = w.Getenv ASKPW_ENV := by simp [envEntry, ho]
      simp [h1, prompt, ho, he]
  · have h1 : (envEntry w args).entry = args.entry := by simp [envEntry, ho]
    simp [h1, prompt, ho]

/-- The result of `parse` in terms of the tokens before the first one that
ends dispatch and of that token. -/
theorem parse_cases (tokens : List Str) (a : arguments) :
    ((∀ t ∈ tokens, t ∉ stopTokens) ∧ dispatchedTokens tokens = tokens ∧
      (parse tokens a).1 = dispatched { a with action := ACTION_COMMAND } tokens) ∨
    ∃ s post, tokens = dispatchedTokens tokens ++ s :: post ∧ s ∈ stopTokens ∧
      (parse tokens a).1 =
        if s = "--".toList then
          { dispatched { a with action := ACTION_COMMAND } (dispatchedTokens tokens) with
            pass := (dispatched { a with action := ACTION_COMMAND }
              (dispatchedTokens tokens)).pass ++ post }
        else if s = "--version".toList ∨ s = "-v".toList then
          { dispatched { a with action := ACTION_COMMAND } (dispatchedTokens tokens) with
            action := ACTION_VERSION }
        else
          { dispatched { a with action := ACTION_COMMAND } (dispatchedTokens tokens) with
            action := ACTION_HELP } := by
  rcases stop_split tokens with h | ⟨pre, s, post, h1, h2, h3, h4⟩
  · left
    refine ⟨h, ?_, ?_⟩
    · unfold dispatchedTokens
      rw [List.takeWhile_eq_self_iff]
      intro t ht; simpa using h t ht
    · simp only [parse]; rw [foldl_visit_proc tokens _ h]
  · right
    have h5 : dispatchedTokens tokens = pre := h4.symm
    refine ⟨s, post, by rw [h5]; exact h1, h3, ?_⟩
    rw [h5]
    simp only [parse]
    rw [h1, foldl_visit_stop pre s post _ h2 h3]
    split_ifs <;> rfl

theorem parse_bin (tokens : List Str) (a : arguments) :
    (parse tokens a).1.bin = overridden ARG_BIN a.bin (dispatchedTokens tokens) := by
  rcases parse_cases tokens a with ⟨-, h1, h2⟩ | ⟨s, post, -, -, h⟩
  · rw [h2, h1]; rfl
  · rw [h]; split_ifs <;> rfl

theorem parse_entry (tokens : List Str) (a : arguments) :
    (parse tokens a).1.entry = overridden ARG_ENTRY a.entry (dispatchedTokens tokens) := by
  rcases parse_cases tokens a with ⟨-, h1, h2⟩ | ⟨s, post, -, -, h⟩
  · rw [h2, h1]; rfl
  · rw [h]; split_ifs <;> rfl

theorem parse_err (tokens : List Str) (a : arguments) :
    (parse tokens a).1.err = (a.err || (dispatchedTokens tokens).any ARG_ERROR.matches) := by
  rcases parse_cases tokens a with ⟨-, h1, h2⟩ | ⟨s, post, -, -, h⟩
  · rw [h2, h1]; rfl
  · rw [h]; split_ifs <;> rfl

theorem foldl_replace_eq (init : Str) (l : List Str) :
    l.foldl (fun cur t => replace cur (SplitAfterN t '=' 2) 1) init =
      lastValue init (l.filter (fun t => decide (afterEq t ≠ []))) := by
  induction l using List.reverseRecOn with
  | nil => simp [lastValue]
  | append_singleton l t ih =>
    rw [List.foldl_append, List.foldl_cons, List.foldl_nil, replace_split, ih, List.filter_append]
    by_cases ht : afterEq t = []
    · simp [ht]
    · simp [ht, lastValue, List.getLast?_append]

theorem overridden_eq (f : flag) (init : Str) (tokens : List Str) :
    overridden f init tokens =
      lastValue init (tokens.filter (fun t => f.matches t && decide (afterEq t ≠ []))) := by
  unfold overridden
  rw [foldl_replace_eq, List.filter_filter]
  congr 1
  apply List.filter_congr
  intro t _
  rw [Bool.and_comm]

theorem bin_matches_eq (t : Str) :
    ARG_BIN.matches t = (startsWith "--bin" t || startsWith "-b" t) := rfl

theorem entry_matches_eq (t : Str) :
    ARG_ENTRY.matches t = (startsWith "--entry" t || startsWith "-e" t) := rfl

theorem filter_takeWhile_insert (p q : Str → Bool) (x : Str) (hp : p x = true)
    (hq : q x = false) (pre post : List Str) :
    ((pre ++ [x] ++ post).takeWhile p).filter q = ((pre ++ post).takeWhile p).filter q := by
  induction pre with
  | nil => simp [List.takeWhile_cons, hp, List.filter_cons, hq]
  | cons y ys ih =>
    by_cases hy : p y = true
    · simp only [List.cons_append, List.takeWhile_cons, hy, if_true, List.filter_cons]
      rw [List.append_assoc] at ih
      simp only [List.append_assoc, ih]
    · simp [List.takeWhile_cons, hy]

/-- The action is decided by the first token that ends dispatch. -/
theorem parse_action (tokens : List Str) (a : arguments) :
    (parse tokens a).1.action =
      match tokens.find? (fun t => decide (t ∈ stopTokens)) with
      | none => ACTION_COMMAND
      | some t =>
        if t = "--version".toList ∨ t = "-v".toList then ACTION_VERSION
        else if t = "--help".toList ∨ t = "-h".toList ∨ t = "-?".toList then ACTION_HELP
        else ACTION_COMMAND := by
  rcases stop_split tokens with h | ⟨pre, s, post, h1, h2, h3, -⟩
  · have hf : tokens.find? (fun t => decide (t ∈ stopTokens)) = none := by
      rw [List.find?_eq_none]; intro t ht; simpa using h t ht
    rw [hf]
    simp only [parse]
    rw [foldl_visit_proc tokens _ h]
    rfl
  · subst h1
    have hf : (pre ++ s :: post).find? (fun t => decide (t ∈ stopTokens)) = some s := by
      have hpre : pre.find? (fun t => decide (t ∈ stopTokens)) = none := by
        rw [List.find?_eq_none]; intro t ht; simpa using h2 t ht
      rw [List.find?_append, hpre, List.find?_cons_of_pos _ (by simpa using h3)]
      rfl
    rw [hf]
    simp only [parse]
    rw [foldl_visit_stop pre s post _ h2 h3]
    simp only [stopTokens, exitTokens, List.mem_cons, List.mem_singleton] at h3
    rcases h3 with rfl | rfl | rfl | rfl | rfl | rfl | h3
    · rfl
    · rfl
    · rfl
    · rfl
    · rfl
    · rfl
    · simp at h3

theorem dispatchedTokens_stop (pre : List Str) (s : Str) (post : List Str)
    (hs : s ∈ stopTokens) : dispatchedTokens (pre ++ s :: post) = dispatchedTokens pre := by
  unfold dispatchedTokens
  induction pre with
  | nil => simp [List.takeWhile_cons, hs]
  | cons y ys ih =>
    by_cases hy : y ∈ stopTokens
    · simp [List.takeWhile_cons, hy]
    · simp only [List.cons_append, List.takeWhile_cons, hy, not_false_eq_true, decide_True,
        if_true, ih]

theorem find_stop_append (pre : List Str) (s : Str) (post : List Str) (hs : s ∈ stopTokens) :
    (pre ++ [s] ++ post).find? (fun t => decide (t ∈ stopTokens)) =
      (pre ++ [s]).find? (fun t => decide (t ∈ stopTokens)) := by
  rw [List.find?_append]
  have hsome : ∃ u, (pre ++ [s]).find? (fun t => decide (t ∈ stopTokens)) = some u := by
    rw [List.find?_append]
    cases hp : pre.find? (fun t => decide (t ∈ stopTokens)) with
    | some u => exact ⟨u, rfl⟩
    | none =>
      refine ⟨s, ?_⟩
      rw [List.find?_cons_of_pos _ (by simpa using hs)]
      rfl
  obtain ⟨u, hu⟩ := hsome
  rw [hu]
  rfl

/-- Fields other than the pass-through sequence are fixed once a token that
ends dispatch has been parsed. -/
theorem parse_frame_after_stop (pre : List Str) (s : Str) (post : List Str) (a : arguments)
    (hs : s ∈ stopTokens) :
    (parse (pre ++ [s] ++ post) a).1.action = (parse (pre ++ [s]) a).1.action ∧
    (parse (pre ++ [s] ++ post) a).1.err = (parse (pre ++ [s]) a).1.err ∧
    (parse (pre ++ [s] ++ post) a).1.bin = (parse (pre ++ [s]) a).1.bin ∧
    (parse (pre ++ [s] ++ post) a).1.entry = (parse (pre ++ [s]) a).1.entry := by
  have hd : dispatchedTokens (pre ++ [s] ++ post) = dispatchedTokens (pre ++ [s]) := by
    rw [List.append_assoc, List.singleton_append, dispatchedTokens_stop pre s post hs,
      dispatchedTokens_stop pre s [] hs]
  refine ⟨?_, ?_, ?_, ?_⟩
  · rw [parse_action, parse_action, find_stop_append pre s post hs]
  · rw [parse_err, parse_err, hd]
  · rw [parse_bin, parse_bin, hd]
  · rw [parse_entry, parse_entry, hd]

/-- Tokens after a bare `--` that the dispatching visitor reaches are
appended to the pass-through sequence. -/
theorem parse_pass_after_dashes (pre post : List Str) (a : arguments)
    (h : ∀ t ∈ pre.takeWhile (fun t => t != "--".toList), t ∉ exitTokens) :
    (parse (pre ++ ["--".toList] ++ post) a).1.pass =
      (parse (pre ++ ["--".toList]) a).1.pass ++ post := by
  have hdd : "--".toList ∈ stopTokens := List.mem_cons_self _ _
  simp only [parse]
  rcases stop_split pre with hp | ⟨p1, s, p2, h1, h2, h3, -⟩
  · rw [List.append_assoc, List.singleton_append, foldl_visit_stop pre _ post _ hp hdd,
      foldl_visit_stop pre _ [] _ hp hdd]
    simp
  · have hs : s = "--".toList := by
      by_contra hne
      have hex : s ∈ exitTokens := by
        rcases List.mem_cons.mp h3 with h | h
        · exact absurd h hne
        · exact h
      have hp1 : ∀ t ∈ p1, (t != "--".toList) = true := by
        intro t ht
        simp only [bne_iff_ne, ne_eq]
        intro he
        exact h2 t ht (he ▸ hdd)
      have hmem : s ∈ pre.takeWhile (fun t => t != "--".toList) := by
        have hne2 : (s != "--".toList) = true := by
          simp only [bne_iff_ne, ne_eq]; exact hne
        rw [h1, List.takeWhile_append_of_pos hp1, List.takeWhile_cons, if_pos hne2]
        exact List.mem_append_right _ (List.mem_cons_self _ _)
      exact h s hmem hex
    subst hs
    subst h1
    have e1 : p1 ++ "--".toList :: p2 ++ ["--".toList] ++ post =
        p1 ++ "--".toList :: (p2 ++ ["--".toList] ++ post) := by simp
    have e2 : p1 ++ "--".toList :: p2 ++ ["--".toList] =
        p1 ++ "--".toList :: (p2 ++ ["--".toList]) := by simp
    rw [e1, e2, foldl_visit_stop p1 _ _ _ h2 hdd, foldl_visit_stop p1 _ _ _ h2 hdd]
    simp

/-- What `TrimSpace` removes is white space at both ends, and what it leaves
neither starts nor ends with white space. -/
theorem TrimSpace_spec (s : Str) :
    ∃ lead trail, s = lead ++ TrimSpace s ++ trail ∧
      (∀ c ∈ lead, IsSpace c = true) ∧ (∀ c ∈ trail, IsSpace c = true) ∧
      (∀ c, (TrimSpace s).head? = some c → IsSpace c = false) ∧
      (∀ c, (TrimSpace s).getLast? = some c → IsSpace c = false) := by
  have hm : (s.dropWhile IsSpace) =
      ((s.dropWhile IsSpace).reverse.dropWhile IsSpace).reverse ++
        ((s.dropWhile IsSpace).reverse.takeWhile IsSpace).reverse := by
    rw [← List.reverse_append, List.takeWhile_append_dropWhile, List.reverse_reverse]
  have hlast : ∀ c, (TrimSpace s).getLast? = some c → IsSpace c = false := by
    intro c hc
    unfold TrimSpace at hc
    rw [List.getLast?_reverse] at hc
    have := List.head?_dropWhile_not IsSpace (s.dropWhile IsSpace).reverse
    rw [hc] at this
    simpa using this
  refine ⟨s.takeWhile IsSpace, ((s.dropWhile IsSpace).reverse.takeWhile IsSpace).reverse,
    ?_, ?_, ?_, ?_, hlast⟩
  · unfold TrimSpace
    rw [List.append_assoc, ← hm, List.takeWhile_append_dropWhile]
  · intro c hc; exact List.mem_takeWhile_imp hc
  · intro c hc; exact List.mem_takeWhile_imp (List.mem_reverse.mp hc)
  · intro c hc
    have h1 : (s.dropWhile IsSpace).head? = some c := by
      rw [hm, List.head?_append]
      unfold TrimSpace at hc
      rw [hc]; rfl
    have := List.head?_dropWhile_not IsSpace s
    rw [h1] at this
    simpa using this

theorem unmatched_no_stop (pre : List Str) (s : Str) (hpre : ∀ t ∈ pre, t ∉ stopTokens)
    (hs : s ∈ stopTokens) : (unmatched pre).count s = 0 := by
  rw [List.count_eq_zero]
  intro hmem
  exact hpre s (List.mem_of_mem_filter hmem) hs

/-- The pass-through sequence in terms of the tokens before the first one
that ends dispatch: only after a bare `--` are further tokens appended. -/
theorem parse_pass (tokens : List Str) (a : arguments) :
    ((∀ t ∈ tokens, t ∉ stopTokens) ∧ (parse tokens a).1.pass = a.pass ++ unmatched tokens) ∨
    (∃ pre post, tokens = pre ++ "--".toList :: post ∧ (∀ t ∈ pre, t ∉ stopTokens) ∧
      (parse tokens a).1.pass = a.pass ++ unmatched pre ++ post) ∨
    (∃ pre s post, tokens = pre ++ s :: post ∧ (∀ t ∈ pre, t ∉ stopTokens) ∧ s ∈ exitTokens ∧
      (parse tokens a).1.pass = a.pass ++ unmatched pre) := by
  simp only [parse]
  rcases stop_split tokens with h | ⟨pre, s, post, h1, h2, h3, -⟩
  · left
    refine ⟨h, ?_⟩
    rw [foldl_visit_proc tokens _ h]; rfl
  · right
    rw [h1, foldl_visit_stop pre s post _ h2 h3]
    by_cases hs : s = "--".toList
    · left
      subst hs
      refine ⟨pre, post, rfl, h2, ?_⟩
      rw [if_pos rfl]; rfl
    · right
      have hex : s ∈ exitTokens := by
        rcases List.mem_cons.mp h3 with h | h
        · exact absurd h hs
        · exact h
      refine ⟨pre, s, post, rfl, h2, hex, ?_⟩
      rw [if_neg hs]
      split_ifs <;> rfl

theorem value_eq (f : flag) (t : Str) :
    f.value t = if afterEq t = [] then ([], false) else (afterEq t, true) := by
  cases t with
  | nil => simp [flag.value, SplitAfterN, splitLoop, afterEq]
  | cons c cs =>
    have hmin : min 1 (c :: cs).length = 1 := by simp
    rcases cutAfter_eq (c :: cs) with ⟨h1, h2⟩ | ⟨a, h⟩
    · simp [flag.value, SplitAfterN, hmin, splitLoop, h1, h2]
    · simp only [flag.value, SplitAfterN, hmin, splitLoop, h]
      by_cases he : afterEq (c :: cs) = []
      · simp [he]
      · have : 0 < (afterEq (c :: cs)).length := List.length_pos.mpr he
        simp [he, this]

theorem afterEq_of_not_mem (t : Str) (h : '=' ∉ t) : afterEq t = [] := by
  unfold afterEq
  have : t.dropWhile (fun c => c != '=') = [] := by
    rw [List.dropWhile_eq_nil_iff]
    intro c hc
    simp only [bne_iff_ne, ne_eq]
    intro he; exact h (he ▸ hc)
  rw [this]; rfl

theorem afterEq_append (pre post : Str) (h : '=' ∉ pre) :
    afterEq (pre ++ '=' :: post) = post := by
  unfold afterEq
  induction pre with
  | nil => simp [List.dropWhile_cons]
  | cons c cs ih =>
    have hc : c ≠ '=' := fun he => h (he ▸ List.mem_cons_self _ _)
    have hcs : '=' ∉ cs := fun hm => h (List.mem_cons_of_mem _ hm)
    simp only [List.cons_append, List.dropWhile_cons, bne_iff_ne, ne_eq, hc, not_false_eq_true,
      if_true]
    exact ih hcs

theorem bin_not_stop (t : Str) (h : ARG_BIN.matches t = true) : t ∉ stopTokens := by
  rw [bin_matches_iff] at h
  intro hs
  simp only [stopTokens, exitTokens, List.mem_cons, List.mem_singleton] at hs
  rcases hs with rfl | rfl | rfl | rfl | rfl | rfl | hs
  all_goals first | (revert h; decide) | simp at hs

theorem entry_not_stop (t : Str) (h : ARG_ENTRY.matches t = true) : t ∉ stopTokens := by
  rw [entry_matches_iff] at h
  intro hs
  simp only [stopTokens, exitTokens, List.mem_cons, List.mem_singleton] at hs
  rcases hs with rfl | rfl | rfl | rfl | rfl | rfl | hs
  all_goals first | (revert h; decide) | simp at hs

theorem error_not_stop (t : Str) (h : ARG_ERROR.matches t = true) : t ∉ stopTokens := by
  rw [error_matches_iff] at h
  rcases h with rfl | rfl <;> decide

theorem not_exact_no_boolean (t : Str) (h : t ∉ exactTokens) :
    ¬ "--".toList = t ∧ ARG_VERSION.matches t = false ∧ ARG_HELPALT.matches t = false ∧
      ARG_HELP.matches t = false ∧ ARG_ERROR.matches t = false := by
  simp only [exactTokens, List.mem_cons, List.mem_singleton, not_or] at h
  obtain ⟨h0, h1, h2, h3, h4, h5, h6, h7, -⟩ := h
  refine ⟨fun e => h0 e.symm, ?_, ?_, ?_, ?_⟩
  · rw [Bool.eq_false_iff, Ne, version_matches_iff]; rintro (e | e)
    · exact h1 e
    · exact h2 e
  · rw [Bool.eq_false_iff, Ne, helpalt_matches_iff]; rintro (e | e)
    · exact h3 e
    · exact h4 e
  · rw [Bool.eq_false_iff, Ne, help_matches_iff]; rintro (e | e)
    · exact h3 e
    · exact h5 e
  · rw [Bool.eq_false_iff, Ne, error_matches_iff]; rintro (e | e)
    · exact h6 e
    · exact h7 e

set_option maxRecDepth 4000 in
/-- At most one effect applies to a token. -/
theorem test_exclusive (t : Str) (c₁ c₂ : Effect) (h₁ : c₁.test t = true)
    (h₂ : c₂.test t = true) : c₁ = c₂ := by
  by_cases hx : t ∈ exactTokens
  · simp only [exactTokens, List.mem_cons, List.mem_singleton] at hx
    rcases hx with rfl | rfl | rfl | rfl | rfl | rfl | rfl | rfl | hx
    all_goals first
      | (cases c₁ <;> cases c₂ <;> first | rfl | (exfalso; revert h₁ h₂; decide))
      | simp at hx
  · obtain ⟨h0, h1, h2, h3, h4⟩ := not_exact_no_boolean t hx
    cases c₁ <;> cases c₂ <;> simp only [Effect.test, h1, h2, h3, h4, Bool.or_false,
      decide_eq_true_eq] at h₁ h₂ <;>
      first
        | rfl
        | exact absurd h₁ h0
        | exact absurd h₂ h0
        | exact Bool.noConfusion h₁
        | exact Bool.noConfusion h₂
        | (rw [entry_not_bin t h₂] at h₁; exact Bool.noConfusion h₁)
        | (rw [entry_not_bin t h₁] at h₂; exact Bool.noConfusion h₂)

theorem find?_perm_unique {α : Type} (p : α → Bool) (l₁ l₂ : List α) (hperm : l₁.Perm l₂)
    (huniq : ∀ x y, p x = true → p y = true → x = y) : l₁.find? p = l₂.find? p := by
  cases h1 : l₁.find? p with
  | none =>
    rw [List.find?_eq_none] at h1
    symm
    rw [List.find?_eq_none]
    intro x hx
    exact h1 x (hperm.mem_iff.mpr hx)
  | some c =>
    have hc : p c = true := List.find?_some h1
    have hm : c ∈ l₂ := hperm.mem_iff.mp (List.mem_of_find?_eq_some h1)
    cases h2 : l₂.find? p with
    | none =>
      rw [List.find?_eq_none] at h2
      exact absurd hc (h2 c hm)
    | some d =>
      rw [huniq c d hc (List.find?_some h2)]

theorem procIn_sourceOrder (args : arguments) (arg : Str) :
    procIn sourceOrder args arg = proc args arg := by
  unfold procIn sourceOrder proc
  simp only [List.find?_cons, List.find?_nil, Effect.test]
  by_cases h0 : "--".toList = arg
  · subst h0; rfl
  · rw [if_neg h0, decide_eq_false h0]
    cases ARG_VERSION.matches arg <;> cases ARG_HELPALT.matches arg <;>
      cases ARG_HELP.matches arg <;> cases ARG_ERROR.matches arg <;>
      cases ARG_BIN.matches arg <;> cases ARG_ENTRY.matches arg <;> rfl

theorem parseIn_eq (order : List Effect) (hperm : order.Perm sourceOrder) (tokens : List Str)
    (a : arguments) : parseIn order tokens a = parse tokens a := by
  have hproc : ∀ args arg, procIn order args arg = proc args arg := by
    intro args arg
    rw [← procIn_sourceOrder]
    unfold procIn
    rw [find?_perm_unique (fun e => e.test arg) order sourceOrder hperm
      (fun x y hx hy => test_exclusive arg x y hx hy)]
  have hvisit : visitIn order = visit := by
    funext st arg
    unfold visitIn visit
    cases st.1 <;> simp only [hproc]
  unfold parseIn parse
  rw [hvisit]

theorem unmatched_eq_filter (tokens : List Str) : unmatched tokens = tokens.filter noFlagForm := by
  unfold unmatched
  apply List.filter_congr
  intro t _
  have he : ARG_ERROR.matches t = (t == "--stderr".toList || t == "-2".toList) := rfl
  rw [he, bin_matches_eq, entry_matches_eq]
  unfold noFlagForm
  simp only [bne]
  cases (t == "--stderr".toList) <;> cases (t == "-2".toList) <;>
    cases startsWith "--bin" t <;> cases startsWith "-b" t <;>
    cases startsWith "--entry" t <;> cases startsWith "-e" t <;> rfl

theorem proc_of_no_match (a : arguments) (t : Str) (hd : t ≠ "--".toList)
    (hnone : ∀ f ∈ recognisedFlags, f.matches t = false) :
    proc a t = (Visitor.proc, pass a t) := by
  have hB := hnone ARG_BIN (by decide)
  have hN := hnone ARG_ENTRY (by decide)
  have hE := hnone ARG_ERROR (by decide)
  have hV := hnone ARG_VERSION (by decide)
  have hA := hnone ARG_HELPALT (by decide)
  have hH := hnone ARG_HELP (by decide)
  have hs : t ∉ stopTokens := by
    rw [mem_stopTokens_iff]
    simp only [hV, hA, hH, not_or]
    exact ⟨fun e => hd e.symm, by simp, by simp, by simp⟩
  rw [proc_of_not_stop a t hs]
  simp [dispatched, overridden, unmatched, hE, hB, hN, pass, arguments.append]

set_option maxRecDepth 4000 in
theorem matching_flags_le_one (t : Str) (ht : t ≠ "--help".toList) :
    (recognisedFlags.filter (fun f => f.matches t)).length ≤ 1 := by
  by_cases hx : t ∈ exactTokens
  · simp only [exactTokens, List.mem_cons, List.mem_singleton] at hx
    rcases hx with rfl | rfl | rfl | rfl | rfl | rfl | rfl | rfl | hx
    all_goals first
      | decide
      | exact absurd rfl ht
      | simp at hx
  · obtain ⟨-, h1, h2, h3, h4⟩ := not_exact_no_boolean t hx
    simp only [recognisedFlags, List.filter_cons, List.filter_nil, h1, h2, h3, h4]
    by_cases hn : ARG_ENTRY.matches t = true
    · simp [hn, entry_not_bin t hn]
    · by_cases hb : ARG_BIN.matches t = true <;> simp [hn, hb]

theorem prompt_flag (current : Str) (stderr : Bool) (stdin : Str) :
    prompt current stderr stdin = prompt current false stdin := by
  unfold prompt
  cases stderr <;> rfl

theorem envEntry_entry (w : World) (a : arguments) :
    (envEntry w a).entry = if a.entry.length = 0 then w.Getenv ASKPW_ENV else a.entry := by
  unfold envEntry; split <;> rfl

/-- The result of `main` as a function of the parsed fields other than the
error-prompt flag and of the world. -/
theorem main_eq (w : World) :
    main w =
      (if (parse (w.Args.drop 1) startArgs).1.action = ACTION_VERSION then (0, version)
      else if (parse (w.Args.drop 1) startArgs).1.action = ACTION_HELP then (0, help)
      else
        match (prompt (if (parse (w.Args.drop 1) startArgs).1.entry.length = 0
            then w.Getenv ASKPW_ENV else (parse (w.Args.drop 1) startArgs).1.entry)
            false w.Stdin) with
        | ((_, some err), tr) => (3, tr ++ warn "Invalid password entry:" err)
        | ((entry, none), tr) =>
          if entry = [] then (0, tr)
          else
            match w.LookPath (parse (w.Args.drop 1) startArgs).1.bin with
            | none =>
              (4, tr ++ [Event.lookPath (parse (w.Args.drop 1) startArgs).1.bin] ++
                warn "Invalid manager command:"
                  ("Unable to resolve " ++ String.mk (parse (w.Args.drop 1) startArgs).1.bin))
            | some path =>
              match w.Run path ((parse (w.Args.drop 1) startArgs).1.pass ++ [entry]) with
              | some _ =>
                (1, tr ++ [Event.lookPath (parse (w.Args.drop 1) startArgs).1.bin] ++
                  [Event.exec path ((parse (w.Args.drop 1) startArgs).1.pass ++ [entry])] ++
                  warn "Password manager error:"
                    (String.mk path ++ " did not exit successfully"))
              | none =>
                (0, tr ++ [Event.lookPath (parse (w.Args.drop 1) startArgs).1.bin] ++
                  [Event.exec path ((parse (w.Args.drop 1) startArgs).1.pass ++ [entry])]) :
        Int × List Event) := by
  rw [← envEntry_entry w (parse (w.Args.drop 1) startArgs).1, ← prompt_flag _ (parse (w.Args.drop 1) startArgs).1.err]
  rcases main_cases w with ⟨ha, hm⟩ | ⟨ha, hm⟩ | ⟨h1, h2, hc⟩
  · rw [hm, if_pos ha]
  · have hv : (parse (w.Args.drop 1) startArgs).1.action ≠ ACTION_VERSION := by
      rw [ha]; decide
    rw [hm, if_neg hv, if_pos ha]
  · rw [if_neg h1, if_neg h2]
    rcases hc with ⟨d, e, hq, hm⟩ | ⟨hq, hm⟩ | ⟨entry, hq, hne, hc⟩
    · rw [hm]
      generalize prompt (envEntry w (parse (w.Args.drop 1) startArgs).1).entry
        (parse (w.Args.drop 1) startArgs).1.err w.Stdin = q at hq ⊢
      obtain ⟨q1, q2⟩ := q
      simp only at hq
      subst hq
      rfl
    · rw [hm]
      generalize prompt (envEntry w (parse (w.Args.drop 1) startArgs).1).entry
        (parse (w.Args.drop 1) startArgs).1.err w.Stdin = q at hq ⊢
      obtain ⟨q1, q2⟩ := q
      simp only at hq
      subst hq
      rfl
    · have step : ∀ r : Int × List Event, main w = r →
          (∀ tr, prompt (envEntry w (parse (w.Args.drop 1) startArgs).1).entry
            (parse (w.Args.drop 1) startArgs).1.err w.Stdin = ((entry, none), tr) →
            r = (match w.LookPath (parse (w.Args.drop 1) startArgs).1.bin with
              | none =>
                (4, tr ++ [Event.lookPath (parse (w.Args.drop 1) startArgs).1.bin] ++
                  warn "Invalid manager command:"
                    ("Unable to resolve " ++
                      String.mk (parse (w.Args.drop 1) startArgs).1.bin))
              | some path =>
                match w.Run path ((parse (w.Args.drop 1) startArgs).1.pass ++ [entry]) with
                | some _ =>
                  (1, tr ++ [Event.lookPath (parse (w.Args.drop 1) startArgs).1.bin] ++
                    [Event.exec path ((parse (w.Args.drop 1) startArgs).1.pass ++ [entry])] ++
                    warn "Password manager error:"
                      (String.mk path ++ " did not exit successfully"))
                | none =>
                  (0, tr ++ [Event.lookPath (parse (w.Args.drop 1) startArgs).1.bin] ++
                    [Event.exec path
                      ((parse (w.Args.drop 1) startArgs).1.pass ++ [entry])]))) →
          main w = (match (prompt (envEntry w (parse (w.Args.drop 1) startArgs).1).entry
              (parse (w.Args.drop 1) startArgs).1.err w.Stdin) with
            | ((_, some err), tr) => (3, tr ++ warn "Invalid password entry:" err)
            | ((entry, none), tr) =>
              if entry = [] then (0, tr)
              else
                match w.LookPath (parse (w.Args.drop 1) startArgs).1.bin with
                | none =>
                  (4, tr ++ [Event.lookPath (parse (w.Args.drop 1) startArgs).1.bin] ++
                    warn "Invalid manager command:"
                      ("Unable to resolve " ++
                        String.mk (parse (w.Args.drop 1) startArgs).1.bin))
                | some path =>
                  match w.Run path ((parse (w.Args.drop 1) startArgs).1.pass ++ [entry]) with
                  | some _ =>
                    (1, tr ++ [Event.lookPath (parse (w.Args.drop 1) startArgs).1.bin] ++
                      [Event.exec path
                        ((parse (w.Args.drop 1) startArgs).1.pass ++ [entry])] ++
                      warn "Password manager error:"
                        (String.mk path ++ " did not exit successfully"))
                  | none =>
                    (0, tr ++ [Event.lookPath (parse (w.Args.drop 1) startArgs).1.bin] ++
                      [Event.exec path
                        ((parse (w.Args.drop 1) startArgs).1.pass ++ [entry])])) := by
        intro r hr hstep
        generalize prompt (envEntry w (parse (w.Args.drop 1) startArgs).1).entry
          (parse (w.Args.drop 1) startArgs).1.err w.Stdin = q at hq hstep ⊢
        obtain ⟨q1, q2⟩ := q
        simp only at hq
        subst hq
        simp only [if_neg hne]
        rw [hr]
        exact hstep q2 rfl
      rcases hc with ⟨hl, hm⟩ | ⟨p, hl, ⟨e, hr, hm⟩ | ⟨hr, hm⟩⟩
      · refine step _ hm ?_
        intro tr htr
        rw [hl, htr]
      · refine step _ hm ?_
        intro tr htr
        rw [hl, htr]
        simp only [hr]
      · refine step _ hm ?_
        intro tr htr
        rw [hl, htr]
        simp only [hr]

/-! ## The claims -/

/-- C1: every argument vector `main` hands to the subprocess is the pass-through
sequence of `parse` followed by the resolved entry as its single last element
(this is what `run` builds from its argument), the pass-through sequence is a
subsequence of the tokens in their original order, and for the tokens
`extra1 --entry=x extra2` the pass-through sequence is `extra1 extra2` and the
vector is `extra1 extra2 x`. -/
theorem argv_is_pass_then_entry (w : World) (path : Str) (argv : List Str)
    (h : Event.exec path argv ∈ (main w).2) :
    (∀ data : arguments, (run w data).2 = [Event.exec data.bin (data.pass ++ [data.entry])]) ∧
    (∃ entry,
      (prompt (envEntry w (parse (w.Args.drop 1) startArgs).1).entry
        (parse (w.Args.drop 1) startArgs).1.err w.Stdin).1 = (entry, none) ∧
      argv = (parse (w.Args.drop 1) startArgs).1.pass ++ [entry]) ∧
    (parse (w.Args.drop 1) startArgs).1.pass.Sublist (w.Args.drop 1) ∧
    (w.Args.drop 1 = ["extra1".toList, "--entry=x".toList, "extra2".toList] →
      (parse (w.Args.drop 1) startArgs).1.pass = ["extra1".toList, "extra2".toList] ∧
      argv = ["extra1".toList, "extra2".toList, "x".toList]) := by
  have hrun : ∀ data : arguments,
      (run w data).2 = [Event.exec data.bin (data.pass ++ [data.entry])] := by
    intro data; simp only [run]; cases w.Run data.bin (data.pass ++ [data.entry]) <;> rfl
  have hex : ∃ entry,
      (prompt (envEntry w (parse (w.Args.drop 1) startArgs).1).entry
        (parse (w.Args.drop 1) startArgs).1.err w.Stdin).1 = (entry, none) ∧
      argv = (parse (w.Args.drop 1) startArgs).1.pass ++ [entry] := by
    have hq := prompt_events (envEntry w (parse (w.Args.drop 1) startArgs).1).entry
      (parse (w.Args.drop 1) startArgs).1.err w.Stdin
    rcases main_cases w with ⟨-, hm⟩ | ⟨-, hm⟩ | ⟨-, -, hc⟩
    · rw [hm] at h; simp [version] at h
    · rw [hm] at h; simp [help] at h
    · rcases hc with ⟨d, e, -, hm⟩ | ⟨-, hm⟩ | ⟨entry, he, -, hc⟩
      · rw [hm] at h
        simp only [List.mem_append, warn, List.mem_singleton] at h
        rcases h with h | h
        · rcases hq _ h with h | h <;> simp at h
        · simp at h
      · rw [hm] at h
        rcases hq _ h with h | h <;> simp at h
      · refine ⟨entry, he, ?_⟩
        rcases hc with ⟨-, hm⟩ | ⟨p, -, ⟨e, -, hm⟩ | ⟨-, hm⟩⟩
        · rw [hm] at h
          simp only [List.mem_append, warn, List.mem_singleton] at h
          rcases h with (h | h) | h
          · rcases hq _ h with h | h <;> simp at h
          · simp at h
          · simp at h
        · rw [hm] at h
          simp only [List.mem_append, warn, List.mem_singleton] at h
          rcases h with ((h | h) | h) | h
          · rcases hq _ h with h | h <;> simp at h
          · simp at h
          · simp only [Event.exec.injEq] at h; exact h.2
          · simp at h
        · rw [hm] at h
          simp only [List.mem_append, List.mem_singleton] at h
          rcases h with (h | h) | h
          · rcases hq _ h with h | h <;> simp at h
          · simp at h
          · simp only [Event.exec.injEq] at h; exact h.2
  refine ⟨hrun, hex, parse_pass_sublist _ _ rfl, ?_⟩
  intro ht
  obtain ⟨entry, he, hv⟩ := hex
  rw [ht] at he hv ⊢
  have hp : (parse ["extra1".toList, "--entry=x".toList, "extra2".toList] startArgs).1 =
      { action := 0, err := false, bin := PWSAFE_BIN, entry := "x".toList,
        pass := ["extra1".toList, "extra2".toList] } := by decide
  rw [hp] at he hv ⊢
  refine ⟨rfl, ?_⟩
  have : entry = "x".toList := by
    simp [envEntry, prompt] at he
    exact he.symm
  rw [hv, this]; rfl

/-- Witness for C1 on the run with tokens `extra1 --entry=x extra2`. -/
theorem argv_is_pass_then_entry_witness :
    Event.exec "/usr/bin/pwsafe".toList ["extra1".toList, "extra2".toList, "x".toList] ∈
      (main (sampleWorld ["extra1".toList, "--entry=x".toList, "extra2".toList] [])).2 ∧
    (parse ((sampleWorld ["extra1".toList, "--entry=x".toList, "extra2".toList] []).Args.drop 1)
      startArgs).1.pass.Sublist
      ((sampleWorld ["extra1".toList, "--entry=x".toList, "extra2".toList] []).Args.drop 1) :=
  ⟨by decide,
   (argv_is_pass_then_entry (sampleWorld ["extra1".toList, "--entry=x".toList, "extra2".toList] [])
      "/usr/bin/pwsafe".toList ["extra1".toList, "extra2".toList, "x".toList] (by decide)).2.2.1⟩

/-- C2: entry resolution in `main` follows the precedence override, environment
variable, prompt: the resolved entry is the override unchanged if it is non-empty,
otherwise the environment value unchanged if it is non-empty, otherwise the text of
standard input before the first newline with leading and trailing white space
removed (resolution fails with `EOF` when standard input has no newline).  Standard
input is read, and the prompt written, only when both are empty: `--entry=bob`
resolves to `bob` with no prompt, and the input line `alice` resolves to `alice`.
What `TrimSpace` removes is white space at both ends, and what is left neither
starts nor ends with white space. -/
theorem entry_precedence (w : World) (args : arguments) :
    prompt (envEntry w args).entry (envEntry w args).err w.Stdin =
      (if args.entry ≠ [] then ((args.entry, none), [])
       else if w.Getenv ASKPW_ENV ≠ [] then ((w.Getenv ASKPW_ENV, none), [])
       else if '\n' ∈ w.Stdin then
         ((TrimSpace (w.Stdin.takeWhile (fun c => c != '\n')), none),
           [Event.stderr PROMPT_TEXT, Event.readStdin])
       else (([], some "EOF"), [Event.stderr PROMPT_TEXT, Event.readStdin])) ∧
    (main (sampleWorld ["--entry=bob".toList] [])).2 =
      [Event.lookPath "pwsafe".toList, Event.exec "/usr/bin/pwsafe".toList ["bob".toList]] ∧
    (main (sampleWorld [] "alice\n".toList)).2 =
      [Event.stderr PROMPT_TEXT, Event.readStdin, Event.lookPath "pwsafe".toList,
        Event.exec "/usr/bin/pwsafe".toList ["alice".toList]] ∧
    (∀ line : Str, ∃ lead trail, line = lead ++ TrimSpace line ++ trail ∧
      (∀ c ∈ lead, IsSpace c = true) ∧ (∀ c ∈ trail, IsSpace c = true) ∧
      (∀ c, (TrimSpace line).head? = some c → IsSpace c = false) ∧
      (∀ c, (TrimSpace line).getLast? = some c → IsSpace c = false)) :=
  ⟨prompt_envEntry w args, by decide, by decide, TrimSpace_spec⟩

/-- C3: the exit code of `main` is 0 when the parsed action is show-version or
show-help; otherwise 3 when reading the entry fails; otherwise 0 when the resolved
entry is empty; otherwise 4 when the executable is not found; otherwise 1 when the
subprocess fails; otherwise 0.  `parse` never returns an error, exit code 9 is never
produced, and `--bin=/nonexistent/prog --entry=x` with a failing lookup exits 4. -/
theorem exit_code (w : World) :
    (main w).1 =
      (if (parse (w.Args.drop 1) startArgs).1.action = ACTION_VERSION ∨
          (parse (w.Args.drop 1) startArgs).1.action = ACTION_HELP then 0
       else
        match (prompt (envEntry w (parse (w.Args.drop 1) startArgs).1).entry
            (parse (w.Args.drop 1) startArgs).1.err w.Stdin).1 with
        | (_, some _) => 3
        | (entry, none) =>
          if entry = [] then 0
          else
            match w.LookPath (parse (w.Args.drop 1) startArgs).1.bin with
            | none => 4
            | some path =>
              match w.Run path ((parse (w.Args.drop 1) startArgs).1.pass ++ [entry]) with
              | some _ => 1
              | none => 0) ∧
    (∀ (cmd : List Str) (args : arguments), (parse cmd args).2 = none) ∧
    (main w).1 ≠ 9 ∧
    (∀ (env : Str → Str) (stdin : Str) (sub : Str → List Str → Option error),
      (main { Args := ["askpw".toList, "--bin=/nonexistent/prog".toList, "--entry=x".toList]
              Getenv := env, Stdin := stdin, LookPath := (fun _ => none), Run := sub }).1 = 4) := by
  have key : (main w).1 =
      (if (parse (w.Args.drop 1) startArgs).1.action = ACTION_VERSION ∨
          (parse (w.Args.drop 1) startArgs).1.action = ACTION_HELP then 0
       else
        match (prompt (envEntry w (parse (w.Args.drop 1) startArgs).1).entry
            (parse (w.Args.drop 1) startArgs).1.err w.Stdin).1 with
        | (_, some _) => 3
        | (entry, none) =>
          if entry = [] then 0
          else
            match w.LookPath (parse (w.Args.drop 1) startArgs).1.bin with
            | none => 4
            | some path =>
              match w.Run path ((parse (w.Args.drop 1) startArgs).1.pass ++ [entry]) with
              | some _ => 1
              | none => 0) := by
    rcases main_cases w with ⟨ha, hm⟩ | ⟨ha, hm⟩ | ⟨h1, h2, hc⟩
    · rw [hm, if_pos (Or.inl ha)]
    · rw [hm, if_pos (Or.inr ha)]
    · rw [if_neg (not_or.mpr ⟨h1, h2⟩)]
      rcases hc with ⟨d, e, hq, hm⟩ | ⟨hq, hm⟩ | ⟨entry, hq, hne, hc⟩
      · rw [hm, hq]
      · rw [hm, hq]; simp
      · rw [hq]
        simp only [if_neg hne]
        rcases hc with ⟨hl, hm⟩ | ⟨p, hl, ⟨e, hr, hm⟩ | ⟨hr, hm⟩⟩
        · rw [hm, hl]
        · rw [hm, hl]; simp only [hr]
        · rw [hm, hl]; simp only [hr]
  refine ⟨key, fun _ _ => rfl, ?_, ?_⟩
  · rw [key]
    split_ifs
    · decide
    · split
      · decide
      · split_ifs
        · decide
        · split
          · decide
          · split <;> decide
  · intro env stdin sub
    have hp : (parse (["askpw".toList, "--bin=/nonexistent/prog".toList,
        "--entry=x".toList].drop 1) startArgs).1 =
        { action := 0, err := false, bin := "/nonexistent/prog".toList, entry := "x".toList,
          pass := [] } := by decide
    have hmc := main_cases (World.mk ["askpw".toList, "--bin=/nonexistent/prog".toList,
        "--entry=x".toList] env stdin (fun _ => none) sub)
    rcases hmc with ⟨ha, -⟩ | ⟨ha, -⟩ | ⟨-, -, hc⟩
    · simp only [hp] at ha; exact absurd ha (by decide)
    · simp only [hp] at ha; exact absurd ha (by decide)
    · simp only [hp] at hc
      rcases hc with ⟨d, e, hq, -⟩ | ⟨hq, -⟩ | ⟨entry, -, -, hc⟩
      · simp [envEntry, prompt] at hq
      · simp [envEntry, prompt] at hq
      · rcases hc with ⟨-, hm⟩ | ⟨p, hl, -⟩
        · rw [hm]
        · simp at hl

/-- C9: when entry resolution yields the empty string, `main` exits with code 0 and
its trace contains neither an executable lookup nor a subprocess invocation,
whatever the bin override and the pass-through tokens are; entry resolution yields
the empty string exactly when the override and the environment value are empty and
the first line of standard input trims to empty, as for the input line `\n`. -/
theorem empty_entry_aborts (w : World)
    (h : (prompt (envEntry w (parse (w.Args.drop 1) startArgs).1).entry
      (envEntry w (parse (w.Args.drop 1) startArgs).1).err w.Stdin).1 = ([], none)) :
    (main w).1 = 0 ∧
    (∀ ev ∈ (main w).2, (∀ name, ev ≠ Event.lookPath name) ∧
      (∀ path argv, ev ≠ Event.exec path argv)) ∧
    ((parse (w.Args.drop 1) startArgs).1.entry = [] ∧ w.Getenv ASKPW_ENV = [] ∧
      '\n' ∈ w.Stdin ∧ TrimSpace (w.Stdin.takeWhile (fun c => c != '\n')) = []) := by
  have hq := prompt_events (envEntry w (parse (w.Args.drop 1) startArgs).1).entry
    (parse (w.Args.drop 1) startArgs).1.err w.Stdin
  have hpe := prompt_envEntry w (parse (w.Args.drop 1) startArgs).1
  rw [(envEntry_fields w _).2.1] at h hpe
  have hprompt : ∀ ev ∈ (prompt (envEntry w (parse (w.Args.drop 1) startArgs).1).entry
      (parse (w.Args.drop 1) startArgs).1.err w.Stdin).2,
      (∀ name, ev ≠ Event.lookPath name) ∧ (∀ path argv, ev ≠ Event.exec path argv) := by
    intro ev hev
    rcases hq ev hev with rfl | rfl <;> simp
  refine ⟨?_, ?_, ?_⟩
  · rcases main_cases w with ⟨-, hm⟩ | ⟨-, hm⟩ | ⟨-, -, hc⟩
    · rw [hm]
    · rw [hm]
    · rcases hc with ⟨d, e, hq, -⟩ | ⟨-, hm⟩ | ⟨entry, hq, hne, -⟩
      · rw [h] at hq; simp at hq
      · rw [hm]
      · rw [h] at hq; simp at hq; exact absurd hq hne
  · rcases main_cases w with ⟨-, hm⟩ | ⟨-, hm⟩ | ⟨-, -, hc⟩
    · rw [hm]; simp [version]
    · rw [hm]; simp [help]
    · rcases hc with ⟨d, e, hq, -⟩ | ⟨-, hm⟩ | ⟨entry, hq, hne, -⟩
      · rw [h] at hq; simp at hq
      · rw [hm]; exact hprompt
      · rw [h] at hq; simp at hq; exact absurd hq hne
  · rw [hpe] at h
    split_ifs at h with h1 h2 h3
    · simp [-List.drop_one] at h; exact absurd h h1
    · simp [-List.drop_one] at h; exact absurd h h2
    · simp [-List.drop_one] at h
      exact ⟨not_not.mp h1, not_not.mp h2, h3, h⟩
    · simp at h

/-- Witness for C9 on the run with no tokens and the input line `\n`. -/
theorem empty_entry_aborts_witness :
    (prompt (envEntry (sampleWorld [] "\n".toList)
        (parse ((sampleWorld [] "\n".toList).Args.drop 1) startArgs).1).entry
      (envEntry (sampleWorld [] "\n".toList)
        (parse ((sampleWorld [] "\n".toList).Args.drop 1) startArgs).1).err
      (sampleWorld [] "\n".toList).Stdin).1 = ([], none) ∧
    (main (sampleWorld [] "\n".toList)).1 = 0 :=
  ⟨by decide, (empty_entry_aborts (sampleWorld [] "\n".toList) (by decide)).1⟩

/-- C6: the parsed action is decided by the first token that is `--` or one of
`--version`, `-v`, `--help`, `-h`, `-?`: show-version for `--version` and `-v`,
show-help for `--help`, `-h` and `-?`, run-command when there is no such token or it
is `--`.  Hence tokens after a version or help token never change the action. -/
theorem action_by_first_stop (tokens : List Str) (a : arguments) :
    (parse tokens a).1.action =
      (match tokens.find? (fun t => decide (t ∈ stopTokens)) with
       | none => ACTION_COMMAND
       | some t =>
         if t = "--version".toList ∨ t = "-v".toList then ACTION_VERSION
         else if t = "--help".toList ∨ t = "-h".toList ∨ t = "-?".toList then ACTION_HELP
         else ACTION_COMMAND) ∧
    (∀ (pre post : List Str) (t : Str), t ∈ exitTokens →
      (parse (pre ++ [t] ++ post) a).1.action = (parse (pre ++ [t]) a).1.action) := by
  refine ⟨parse_action tokens a, ?_⟩
  intro pre post t ht
  rw [parse_action, parse_action, find_stop_append pre t post (List.mem_cons_of_mem _ ht)]

/-- Witness for C6: tokens after `--help` do not change the action. -/
theorem action_by_first_stop_witness :
    "--help".toList ∈ exitTokens ∧
    (parse (["x".toList] ++ ["--help".toList] ++ ["--version".toList, "--".toList]) startArgs).1.action
      = (parse (["x".toList] ++ ["--help".toList]) startArgs).1.action :=
  ⟨by decide,
   (action_by_first_stop [] startArgs).2 ["x".toList] ["--version".toList, "--".toList]
     "--help".toList (by decide)⟩

/-- C7: last occurrence wins: after parsing, the bin field is the text after the
first `=` of the last token that precedes the first `--`, version or help token,
starts with `--bin` or `-b` and has non-empty text after its first `=`, and it is
the initial bin value when there is no such token; the same holds for the entry
field with `--entry` and `-e`. -/
theorem last_override_wins (tokens : List Str) (a : arguments) :
    (parse tokens a).1.bin =
      lastValue a.bin ((dispatchedTokens tokens).filter
        (fun t => (startsWith "--bin" t || startsWith "-b" t) && decide (afterEq t ≠ []))) ∧
    (parse tokens a).1.entry =
      lastValue a.entry ((dispatchedTokens tokens).filter
        (fun t => (startsWith "--entry" t || startsWith "-e" t) && decide (afterEq t ≠ []))) := by
  constructor
  · rw [parse_bin, overridden_eq]
    simp only [bin_matches_eq]
  · rw [parse_entry, overridden_eq]
    simp only [entry_matches_eq]

/-- C8: inserting the token `--bin=` anywhere in a token list never changes the bin
field, and parsing `--bin=` alone leaves bin at its prior value, which is the
default `pwsafe` in the main flow. -/
theorem empty_bin_ignored (pre post : List Str) (a : arguments) :
    (parse (pre ++ ["--bin=".toList] ++ post) a).1.bin = (parse (pre ++ post) a).1.bin ∧
    (parse ["--bin=".toList] a).1.bin = a.bin ∧
    (parse ["--bin=".toList] startArgs).1.bin = "pwsafe".toList := by
  have key : ∀ pre post : List Str,
      (parse (pre ++ ["--bin=".toList] ++ post) a).1.bin = (parse (pre ++ post) a).1.bin := by
    intro pre post
    rw [parse_bin, parse_bin, overridden_eq, overridden_eq]
    unfold dispatchedTokens
    rw [filter_takeWhile_insert _ _ _ (by decide) (by decide)]
  refine ⟨key pre post, ?_, by decide⟩
  have h := key [] []
  simp only [List.nil_append, List.append_nil] at h
  rw [h, parse_bin]
  rfl

/-- C4, as stated, fails: after `--version` the visitor discards every token, so in
`--version -- x` the token after the bare `--` is not forwarded. -/
theorem dashes_after_version_not_forwarded :
    (parse (["--version".toList] ++ ["--".toList] ++ ["x".toList]) startArgs).1.pass = [] ∧
    ¬ (["x".toList] <:+
      (parse (["--version".toList] ++ ["--".toList] ++ ["x".toList]) startArgs).1.pass) := by
  have h : (parse (["--version".toList] ++ ["--".toList] ++ ["x".toList]) startArgs).1.pass
      = [] := by decide
  refine ⟨h, ?_⟩
  rw [h]
  simp

/-- C4, amended: when no version or help token occurs in `pre` before its first
`--`, parsing `pre ++ ["--"] ++ post` forwards every token after the bare `--`: the
pass-through sequence is that of `pre ++ ["--"]` followed by exactly `post`, verbatim
and in order; and for all `pre` and `post` no token of `post` changes the action,
error-prompt, bin or entry field.  `-- --entry=x` yields the pass-through sequence
`--entry=x` and leaves the entry override unset. -/
theorem after_bare_dashes (pre post : List Str) (a : arguments) :
    ((∀ t ∈ pre.takeWhile (fun t => t != "--".toList), t ∉ exitTokens) →
      (parse (pre ++ ["--".toList] ++ post) a).1.pass =
        (parse (pre ++ ["--".toList]) a).1.pass ++ post ∧
      post <:+ (parse (pre ++ ["--".toList] ++ post) a).1.pass) ∧
    ((parse (pre ++ ["--".toList] ++ post) a).1.action =
        (parse (pre ++ ["--".toList]) a).1.action ∧
      (parse (pre ++ ["--".toList] ++ post) a).1.err = (parse (pre ++ ["--".toList]) a).1.err ∧
      (parse (pre ++ ["--".toList] ++ post) a).1.bin = (parse (pre ++ ["--".toList]) a).1.bin ∧
      (parse (pre ++ ["--".toList] ++ post) a).1.entry =
        (parse (pre ++ ["--".toList]) a).1.entry) ∧
    ((parse ["--".toList, "--entry=x".toList] startArgs).1.pass = ["--entry=x".toList] ∧
      (parse ["--".toList, "--entry=x".toList] startArgs).1.entry = []) := by
  refine ⟨?_, parse_frame_after_stop pre _ post a (List.mem_cons_self _ _), by decide⟩
  intro h
  have hp := parse_pass_after_dashes pre post a h
  exact ⟨hp, by rw [hp]; exact List.suffix_append _ _⟩

/-- Witness for C4 on `--stderr -- --entry=x -v`. -/
theorem after_bare_dashes_witness :
    (∀ t ∈ ["--stderr".toList].takeWhile (fun t => t != "--".toList), t ∉ exitTokens) ∧
    (parse (["--stderr".toList] ++ ["--".toList] ++ ["--entry=x".toList, "-v".toList])
        startArgs).1.pass =
      (parse (["--stderr".toList] ++ ["--".toList]) startArgs).1.pass ++
        ["--entry=x".toList, "-v".toList] :=
  ⟨by decide,
   ((after_bare_dashes ["--stderr".toList] ["--entry=x".toList, "-v".toList] startArgs).1
      (by decide)).1⟩

/-- C5, as stated, fails: the token `-extra` has none of the documented flag forms
and the token list contains no `--`, version or help token, yet the entry flag
matches it by prefix and it is not forwarded. -/
theorem prefix_token_not_forwarded :
    documentedForm "-extra".toList = false ∧
    (∀ t ∈ ["-extra".toList], t ∉ stopTokens) ∧
    "-extra".toList ∉ (parse ["-extra".toList] startArgs).1.pass := by
  decide

/-- C5, amended: in a token list that contains no `--`, `--version`, `-v`, `--help`,
`-h` or `-?` token, every token that is neither `--stderr` nor `-2` and does not
start with `--bin`, `-b`, `--entry` or `-e` is treated as a pass-through argument:
each of its occurrences is appended verbatim to the pass-through sequence, and it
therefore appears in the subprocess argument vector before the entry. -/
theorem unmatched_token_forwarded (tokens : List Str) (a : arguments) (t : Str)
    (hstop : ∀ u ∈ tokens, u ∉ stopTokens) (ht : t ∈ tokens)
    (h1 : t ≠ "--stderr".toList) (h2 : t ≠ "-2".toList)
    (h3 : startsWith "--bin" t = false) (h4 : startsWith "-b" t = false)
    (h5 : startsWith "--entry" t = false) (h6 : startsWith "-e" t = false) :
    t ∈ (parse tokens a).1.pass ∧
    (parse tokens a).1.pass.count t = a.pass.count t + tokens.count t ∧
    (∀ (w : World) (entry : Str), ∃ front,
      (run w { (parse tokens a).1 with entry := entry }).2 =
        [Event.exec (parse tokens a).1.bin (front ++ [entry])] ∧ t ∈ front) := by
  have hpass : (parse tokens a).1.pass = a.pass ++ unmatched tokens := by
    simp only [parse]
    rw [foldl_visit_proc tokens _ hstop]
    rfl
  have hun : (!(ARG_ERROR.matches t) && !(ARG_BIN.matches t) && !(ARG_ENTRY.matches t)) = true := by
    have he : ARG_ERROR.matches t = false := by
      rw [Bool.eq_false_iff, Ne, error_matches_iff]
      rintro (h | h)
      · exact h1 h
      · exact h2 h
    simp [he, bin_matches_eq, entry_matches_eq, h3, h4, h5, h6]
  have hmem : t ∈ (parse tokens a).1.pass := by
    rw [hpass]
    exact List.mem_append_right _ (List.mem_filter.mpr ⟨ht, hun⟩)
  refine ⟨hmem, ?_, ?_⟩
  · rw [hpass, List.count_append]
    unfold unmatched
    rw [List.count_filter
      (p := fun t => !(ARG_ERROR.matches t) && !(ARG_BIN.matches t) && !(ARG_ENTRY.matches t)) hun]
  · intro w entry
    refine ⟨(parse tokens a).1.pass, ?_, hmem⟩
    simp only [run]
    cases w.Run (parse tokens a).1.bin ((parse tokens a).1.pass ++ [entry]) <;> rfl

/-- Witness for C5 on the tokens `extra1 --entry=x extra2`. -/
theorem unmatched_token_forwarded_witness :
    "extra2".toList ∈
      (parse ["extra1".toList, "--entry=x".toList, "extra2".toList] startArgs).1.pass :=
  (unmatched_token_forwarded ["extra1".toList, "--entry=x".toList, "extra2".toList] startArgs
    "extra2".toList (by decide) (by decide) (by decide) (by decide) (by decide) (by decide)
    (by decide) (by decide)).1

/-- C10, as stated, fails: `a b` and `b a` are permutations without version or help
token and without bin or entry tokens, yet their pass-through sequences differ; and
`-- --stderr` and `--stderr --` differ in the error-prompt flag. -/
theorem reordering_changes_parse :
    (["a".toList, "b".toList].Perm ["b".toList, "a".toList] ∧
      (∀ t ∈ ["a".toList, "b".toList], t ∉ exitTokens) ∧
      ["a".toList, "b".toList].filter ARG_BIN.matches =
        ["b".toList, "a".toList].filter ARG_BIN.matches ∧
      ["a".toList, "b".toList].filter ARG_ENTRY.matches =
        ["b".toList, "a".toList].filter ARG_ENTRY.matches ∧
      (parse ["a".toList, "b".toList] startArgs).1.pass ≠
        (parse ["b".toList, "a".toList] startArgs).1.pass) ∧
    (["--".toList, "--stderr".toList].Perm ["--stderr".toList, "--".toList] ∧
      (∀ t ∈ ["--".toList, "--stderr".toList], t ∉ exitTokens) ∧
      ["--".toList, "--stderr".toList].filter ARG_BIN.matches =
        ["--stderr".toList, "--".toList].filter ARG_BIN.matches ∧
      ["--".toList, "--stderr".toList].filter ARG_ENTRY.matches =
        ["--stderr".toList, "--".toList].filter ARG_ENTRY.matches ∧
      (parse ["--".toList, "--stderr".toList] startArgs).1.err ≠
        (parse ["--stderr".toList, "--".toList] startArgs).1.err) := by
  refine ⟨⟨List.Perm.swap _ _ _, ?_, ?_, ?_, ?_⟩, ⟨List.Perm.swap _ _ _, ?_, ?_, ?_, ?_⟩⟩ <;>
    decide

/-- C10, amended: two token lists that are permutations of each other, contain no
`--`, `--version`, `-v`, `--help`, `-h` or `-?` token, and list the tokens matching
the bin flag in the same relative order and the tokens matching the entry flag in
the same relative order, parse to the same action, error-prompt flag, bin and entry
and to pass-through sequences that are permutations of each other; the whole
ParsedArguments are equal when the tokens no flag matches are also listed in the same
relative order. -/
theorem parse_up_to_reordering (l₁ l₂ : List Str) (a : arguments) (hperm : l₁.Perm l₂)
    (hstop : ∀ t ∈ l₁, t ∉ stopTokens)
    (hbin : l₁.filter ARG_BIN.matches = l₂.filter ARG_BIN.matches)
    (hentry : l₁.filter ARG_ENTRY.matches = l₂.filter ARG_ENTRY.matches) :
    (parse l₁ a).1.action = (parse l₂ a).1.action ∧
    (parse l₁ a).1.err = (parse l₂ a).1.err ∧
    (parse l₁ a).1.bin = (parse l₂ a).1.bin ∧
    (parse l₁ a).1.entry = (parse l₂ a).1.entry ∧
    (parse l₁ a).1.pass.Perm (parse l₂ a).1.pass ∧
    (unmatched l₁ = unmatched l₂ → parse l₁ a = parse l₂ a) := by
  have hstop2 : ∀ t ∈ l₂, t ∉ stopTokens := fun t ht => hstop t (hperm.mem_iff.mpr ht)
  have e1 : (parse l₁ a).1 = dispatched { a with action := ACTION_COMMAND } l₁ := by
    simp only [parse]; rw [foldl_visit_proc l₁ _ hstop]
  have e2 : (parse l₂ a).1 = dispatched { a with action := ACTION_COMMAND } l₂ := by
    simp only [parse]; rw [foldl_visit_proc l₂ _ hstop2]
  have hany : l₁.any ARG_ERROR.matches = l₂.any ARG_ERROR.matches := by
    rw [Bool.eq_iff_iff, List.any_eq_true, List.any_eq_true]
    constructor
    · rintro ⟨x, hx, hm⟩; exact ⟨x, hperm.mem_iff.mp hx, hm⟩
    · rintro ⟨x, hx, hm⟩; exact ⟨x, hperm.mem_iff.mpr hx, hm⟩
  have hb : overridden ARG_BIN a.bin l₁ = overridden ARG_BIN a.bin l₂ := by
    unfold overridden; rw [hbin]
  have he : overridden ARG_ENTRY a.entry l₁ = overridden ARG_ENTRY a.entry l₂ := by
    unfold overridden; rw [hentry]
  have hp : (unmatched l₁).Perm (unmatched l₂) := hperm.filter _
  rw [e1, e2]
  refine ⟨rfl, ?_, hb, he, ?_, ?_⟩
  · simp only [dispatched, hany]
  · simp only [dispatched]
    exact hp.append_left _
  · intro hu
    have : parse l₁ a = ((parse l₁ a).1, (parse l₁ a).2) := rfl
    rw [this]
    have : parse l₂ a = ((parse l₂ a).1, (parse l₂ a).2) := rfl
    rw [this, e1, e2]
    simp only [dispatched, hany, hb, he, hu]
    rfl

/-- Witness for C10 on `a --stderr --bin=p` and `--bin=p a --stderr`. -/
theorem parse_up_to_reordering_witness :
    parse ["a".toList, "--stderr".toList, "--bin=p".toList] startArgs =
      parse ["--bin=p".toList, "a".toList, "--stderr".toList] startArgs :=
  (parse_up_to_reordering ["a".toList, "--stderr".toList, "--bin=p".toList]
    ["--bin=p".toList, "a".toList, "--stderr".toList] startArgs
    (by decide) (by decide) (by decide) (by decide)).2.2.2.2.2 (by decide)

/-- C11, as stated, fails: in `-- --` the second `--` is visited by the forwarding
closure and reaches the pass-through sequence. -/
theorem second_dashes_forwarded :
    startArgs.pass = [] ∧
    "--".toList ∈ (parse ["--".toList, "--".toList] startArgs).1.pass := by
  decide

/-- C11, amended: the `--` token that switches the visitor is never itself forwarded,
only `--` tokens after it are: parsed from an empty pass-through sequence, a token
list `pre ++ ["--"] ++ post` whose part `pre` has no `--`, version or help token
yields the tokens of `pre` no flag matches followed by `post`; the pass-through
sequence of any token list holds fewer `--` than the list unless neither holds any;
and it holds none when the token list has at most one `--`. -/
theorem switching_dashes_not_forwarded (tokens : List Str) (a : arguments)
    (ha : a.pass = []) :
    (∀ pre post : List Str, tokens = pre ++ ["--".toList] ++ post →
      (∀ t ∈ pre, t ∉ stopTokens) → (parse tokens a).1.pass = unmatched pre ++ post) ∧
    (parse tokens a).1.pass.count "--".toList ≤ tokens.count "--".toList - 1 ∧
    (tokens.count "--".toList ≤ 1 → "--".toList ∉ (parse tokens a).1.pass) := by
  have hdd : "--".toList ∈ stopTokens := List.mem_cons_self _ _
  have hcount : (parse tokens a).1.pass.count "--".toList ≤ tokens.count "--".toList - 1 := by
    rcases parse_pass tokens a with ⟨h, hp⟩ | ⟨pre, post, h1, h2, hp⟩ | ⟨pre, s, post, h1, h2, -, hp⟩
    · rw [hp, ha, List.nil_append, unmatched_no_stop tokens _ h hdd]
      exact Nat.zero_le _
    · rw [hp, ha, List.nil_append, List.count_append, unmatched_no_stop pre _ h2 hdd, h1,
        List.count_append, List.count_cons_self]
      omega
    · rw [hp, ha, List.nil_append, unmatched_no_stop pre _ h2 hdd]
      exact Nat.zero_le _
  refine ⟨?_, hcount, ?_⟩
  · intro pre post h1 h2
    simp only [parse]
    rw [h1, List.append_assoc, List.singleton_append, foldl_visit_stop pre _ post _ h2 hdd,
      if_pos rfl]
    simp [dispatched, ha]
  · intro h1
    rw [← List.count_eq_zero]
    omega

/-- Witness for C11 on `a -- --entry=x`. -/
theorem switching_dashes_not_forwarded_witness :
    startArgs.pass = [] ∧
    "--".toList ∉ (parse ["a".toList, "--".toList, "--entry=x".toList] startArgs).1.pass :=
  ⟨rfl,
   (switching_dashes_not_forwarded ["a".toList, "--".toList, "--entry=x".toList] startArgs
      rfl).2.2 (by decide)⟩

/-- C12: once a version or help token is reached, all further tokens are discarded:
when `pre` contains no `--` token and `t` is one of `--version`, `-v`, `--help`, `-h`,
`-?`, parsing `pre ++ [t] ++ post` gives the same result as parsing `pre ++ [t]`, in
every field, also when `post` contains `--`, `--bin=...`, `--entry=...` or `--stderr`. -/
theorem tokens_after_exit_discarded (pre post : List Str) (t : Str) (a : arguments)
    (hpre : "--".toList ∉ pre) (ht : t ∈ exitTokens) :
    parse (pre ++ [t] ++ post) a = parse (pre ++ [t]) a := by
  have hts : t ∈ stopTokens := List.mem_cons_of_mem _ ht
  have htd : t ≠ "--".toList := by
    intro h; subst h; revert ht; decide
  simp only [parse]
  rcases stop_split pre with hp | ⟨p1, s, p2, h1, h2, h3, -⟩
  · rw [List.append_assoc, List.singleton_append, foldl_visit_stop pre t post _ hp hts,
      foldl_visit_stop pre t [] _ hp hts, if_neg htd, if_neg htd]
  · have hsd : s ≠ "--".toList := by
      intro h; subst h
      exact hpre (by rw [h1]; exact List.mem_append_right _ (List.mem_cons_self _ _))
    subst h1
    have e1 : p1 ++ s :: p2 ++ [t] ++ post = p1 ++ s :: (p2 ++ [t] ++ post) := by simp
    have e2 : p1 ++ s :: p2 ++ [t] = p1 ++ s :: (p2 ++ [t]) := by simp
    rw [e1, e2, foldl_visit_stop p1 s _ _ h2 h3, foldl_visit_stop p1 s _ _ h2 h3, if_neg hsd,
      if_neg hsd]

/-- Witness for C12 on `x --help -- --bin=p --entry=e --stderr`. -/
theorem tokens_after_exit_discarded_witness :
    "--".toList ∉ ["x".toList] ∧ "--help".toList ∈ exitTokens ∧
    parse (["x".toList] ++ ["--help".toList] ++
        ["--".toList, "--bin=p".toList, "--entry=e".toList, "--stderr".toList]) startArgs =
      parse (["x".toList] ++ ["--help".toList]) startArgs :=
  ⟨by decide, by decide,
   tokens_after_exit_discarded ["x".toList]
     ["--".toList, "--bin=p".toList, "--entry=e".toList, "--stderr".toList] "--help".toList
     startArgs (by decide) (by decide)⟩

/-- C13: a value-taking flag matches a token exactly when the token starts with
`--<long>` or with `-<short>`, and a boolean flag exactly when the token equals
`--<long>` or `-<short>`; so `--version=1` and `--stderrx` match none of the boolean
flags, while `--bin=path` and the bare `--bin` both match the bin flag. -/
theorem matches_spec (f : flag) (t : Str) :
    (f.matches t = true ↔
      if f.valued = true then
        ("--".toList ++ f.long) <+: t ∨ ("-".toList ++ f.short) <+: t
      else t = "--".toList ++ f.long ∨ t = "-".toList ++ f.short) ∧
    (∀ g ∈ [ARG_ERROR, ARG_VERSION, ARG_HELPALT, ARG_HELP],
      g.matches "--version=1".toList = false ∧ g.matches "--stderrx".toList = false) ∧
    ARG_BIN.matches "--bin=path".toList = true ∧ ARG_BIN.matches "--bin".toList = true := by
  refine ⟨?_, by decide, by decide, by decide⟩
  unfold flag.matches HasPrefix
  by_cases hv : f.valued = true
  · simp [hv]
  · simp [hv]

/-- C14: `flag.value` returns the text after the first `=` of the token together with
`true` when the token contains a `=` and that text is non-empty, and the empty string
with `false` otherwise; so `-e=a=b` gives `a=b`.  The text after the first `=` of
`pre ++ "=" ++ post`, with no `=` in `pre`, is `post`. -/
theorem value_spec (f : flag) (t : Str) :
    f.value t = (if '=' ∈ t ∧ afterEq t ≠ [] then (afterEq t, true) else ([], false)) ∧
    ARG_ENTRY.value "-e=a=b".toList = ("a=b".toList, true) ∧
    (∀ pre post : Str, '=' ∉ pre → afterEq (pre ++ '=' :: post) = post) := by
  refine ⟨?_, by decide, afterEq_append⟩
  rw [value_eq]
  by_cases he : afterEq t = []
  · simp [he]
  · have hm : '=' ∈ t := by
      by_contra hm; exact he (afterEq_of_not_mem t hm)
    simp [he, hm]

/-- Witness for C14: the text after the first `=` of `-e=a=b`. -/
theorem value_spec_witness :
    '=' ∉ "-e".toList ∧ afterEq ("-e".toList ++ '=' :: "a=b".toList) = "a=b".toList :=
  ⟨by decide, (value_spec ARG_ENTRY []).2.2 "-e".toList "a=b".toList (by decide)⟩

/-- C19: the bin and entry effects of `parse` agree with the value extraction of the
flag grammar: `replace` applied to the token split after its first `=` leaves the
field equal to `v` when `flag.value` returns `(v, true)` and leaves it unchanged when
`flag.value` reports no value; this is the new bin field when the dispatching visitor
sees a token the bin flag matches, and the new entry field for the entry flag. -/
theorem replace_agrees_with_value (g : flag) (t f : Str) (a : arguments) :
    replace f (SplitAfterN t '=' 2) 1 = (if (g.value t).2 = true then (g.value t).1 else f) ∧
    (ARG_BIN.matches t = true →
      (proc a t).2.bin = if (ARG_BIN.value t).2 = true then (ARG_BIN.value t).1 else a.bin) ∧
    (ARG_ENTRY.matches t = true →
      (proc a t).2.entry =
        if (ARG_ENTRY.value t).2 = true then (ARG_ENTRY.value t).1 else a.entry) := by
  have key : ∀ (g : flag) (f : Str),
      replace f (SplitAfterN t '=' 2) 1 = (if (g.value t).2 = true then (g.value t).1 else f) := by
    intro g f
    rw [replace_split, value_eq]
    by_cases he : afterEq t = [] <;> simp [he]
  refine ⟨key g f, ?_, ?_⟩
  · intro hb
    rw [proc_of_not_stop a t (bin_not_stop t hb), ← key ARG_BIN a.bin]
    simp [dispatched, overridden, hb]
  · intro he
    rw [proc_of_not_stop a t (entry_not_stop t he), ← key ARG_ENTRY a.entry]
    simp [dispatched, overridden, he]

/-- Witness for C19 on the token `--bin=/opt/pw`. -/
theorem replace_agrees_with_value_witness :
    ARG_BIN.matches "--bin=/opt/pw".toList = true ∧
    (proc startArgs "--bin=/opt/pw".toList).2.bin =
      if (ARG_BIN.value "--bin=/opt/pw".toList).2 = true then
        (ARG_BIN.value "--bin=/opt/pw".toList).1
      else startArgs.bin :=
  ⟨by decide,
   (replace_agrees_with_value ARG_BIN "--bin=/opt/pw".toList [] startArgs).2.1 (by decide)⟩

/-- C15, as stated, fails: the token `--help` is matched by two of the six recognised
flags, help-alt and help, which share the long name; and the token `--` is matched by
none of them yet the dispatching visitor does not forward it. -/
theorem help_matched_by_two_flags :
    recognisedFlags.filter (fun f => f.matches "--help".toList) = [ARG_HELPALT, ARG_HELP] ∧
    ARG_HELPALT ≠ ARG_HELP ∧
    (∀ f ∈ recognisedFlags, f.matches "--".toList = false) ∧
    proc startArgs "--".toList ≠ (Visitor.proc, pass startArgs "--".toList) := by
  decide

/-- C15, amended: every token other than `--help` is matched by at most one of the six
recognised flags; `--help` is matched by exactly two, help-alt and help, which have
the same effect; and a token other than `--` that none of the six flags matches is
treated as pass-through by the dispatching visitor. -/
theorem flags_match_at_most_once (t : Str) (a : arguments) :
    (t ≠ "--help".toList → (recognisedFlags.filter (fun f => f.matches t)).length ≤ 1) ∧
    recognisedFlags.filter (fun f => f.matches "--help".toList) = [ARG_HELPALT, ARG_HELP] ∧
    (∀ b : arguments, (proc b "--help".toList).2 = { b with action := ACTION_HELP }) ∧
    (t ≠ "--".toList → (∀ f ∈ recognisedFlags, f.matches t = false) →
      proc a t = (Visitor.proc, pass a t)) :=
  ⟨matching_flags_le_one t, by decide, fun _ => rfl, proc_of_no_match a t⟩

/-- Witness for C15: `--bin=x` is matched by one flag and `extra` is forwarded. -/
theorem flags_match_at_most_once_witness :
    (recognisedFlags.filter (fun f => f.matches "--bin=x".toList)).length ≤ 1 ∧
    proc startArgs "extra".toList = (Visitor.proc, pass startArgs "extra".toList) :=
  ⟨(flags_match_at_most_once "--bin=x".toList startArgs).1 (by decide),
   (flags_match_at_most_once "extra".toList startArgs).2.2.2 (by decide) (by decide)⟩

/-- C18: for a token list without `--`, version or help token, the pass-through
sequence after parsing is the initial one followed by exactly the tokens no flag
matches (not `--stderr` or `-2`, not starting with `--bin`, `-b`, `--entry` or `-e`),
in their original order and with duplicates kept; a token that one of the recognised
flags matches is not among the appended tokens, and is absent from the pass-through
sequence when the initial one is empty. -/
theorem pass_is_unmatched_tokens (tokens : List Str) (a : arguments)
    (hstop : ∀ t ∈ tokens, t ∉ stopTokens) :
    (parse tokens a).1.pass = a.pass ++ tokens.filter noFlagForm ∧
    (∀ t, (∃ f ∈ recognisedFlags, f.matches t = true) → t ∉ tokens.filter noFlagForm) ∧
    (a.pass = [] → ∀ t, (∃ f ∈ recognisedFlags, f.matches t = true) →
      t ∉ (parse tokens a).1.pass) := by
  have hpass : (parse tokens a).1.pass = a.pass ++ tokens.filter noFlagForm := by
    simp only [parse]
    rw [foldl_visit_proc tokens _ hstop, ← unmatched_eq_filter]
    rfl
  have habs : ∀ t, (∃ f ∈ recognisedFlags, f.matches t = true) →
      t ∉ tokens.filter noFlagForm := by
    rintro t ⟨f, hf, hm⟩ hmem
    rw [← unmatched_eq_filter] at hmem
    have ht : t ∈ tokens := List.mem_of_mem_filter hmem
    have hu := (List.mem_filter.mp hmem).2
    simp only [recognisedFlags, List.mem_cons, List.mem_singleton] at hf
    rcases hf with rfl | rfl | rfl | rfl | rfl | rfl | hf
    · simp [hm] at hu
    · simp [hm] at hu
    · simp [hm] at hu
    · exact hstop t ht ((mem_stopTokens_iff t).mpr (Or.inr (Or.inl hm)))
    · exact hstop t ht ((mem_stopTokens_iff t).mpr (Or.inr (Or.inr (Or.inl hm))))
    · exact hstop t ht ((mem_stopTokens_iff t).mpr (Or.inr (Or.inr (Or.inr hm))))
    · simp at hf
  refine ⟨hpass, habs, ?_⟩
  intro ha t ht
  rw [hpass, ha, List.nil_append]
  exact habs t ht

/-- Witness for C18 on `x --stderr x -extra --bin=p y`. -/
theorem pass_is_unmatched_tokens_witness :
    (parse ["x".toList, "--stderr".toList, "x".toList, "-extra".toList, "--bin=p".toList,
        "y".toList] startArgs).1.pass =
      startArgs.pass ++ ["x".toList, "--stderr".toList, "x".toList, "-extra".toList,
        "--bin=p".toList, "y".toList].filter noFlagForm :=
  (pass_is_unmatched_tokens ["x".toList, "--stderr".toList, "x".toList, "-extra".toList,
    "--bin=p".toList, "y".toList] startArgs (by decide)).1

/-- C20: the flag effects are mutually exclusive: for every token at most one of the
following holds: it equals `--`, the version flag matches it, a help flag matches it,
the stderr flag matches it, the bin flag matches it, the entry flag matches it.  Hence
a dispatching visitor that tests the effects in any other priority order, a
permutation of the order of `proc`, yields the same result of `parse` for every token
list. -/
theorem effects_exclusive (order : List Effect) (tokens : List Str) (a : arguments)
    (hperm : order.Perm sourceOrder) :
    (∀ (t : Str) (c₁ c₂ : Effect), c₁.test t = true → c₂.test t = true → c₁ = c₂) ∧
    (∀ (args : arguments) (arg : Str), procIn sourceOrder args arg = proc args arg) ∧
    parseIn order tokens a = parse tokens a :=
  ⟨test_exclusive, procIn_sourceOrder, parseIn_eq order hperm tokens a⟩

/-- Witness for C20: testing the effects in the reverse order. -/
theorem effects_exclusive_witness :
    sourceOrder.reverse.Perm sourceOrder ∧
    parseIn sourceOrder.reverse
        ["a".toList, "-e=k".toList, "--stderr".toList, "--".toList, "-v".toList] startArgs =
      parse ["a".toList, "-e=k".toList, "--stderr".toList, "--".toList, "-v".toList] startArgs :=
  ⟨List.reverse_perm _,
   (effects_exclusive sourceOrder.reverse
      ["a".toList, "-e=k".toList, "--stderr".toList, "--".toList, "-v".toList] startArgs
      (List.reverse_perm _)).2.2⟩

/-- C16: entry resolution fails exactly when the interactive read is needed and the
input ends before a newline: `prompt`, called as in `main`, returns an error if and
only if the override and the environment value are both empty and standard input
contains no newline, whatever other bytes it holds; and a run of `main` that reaches
entry resolution, the parsed action being run-command, and gets this error exits with
code 3 and neither looks up an executable nor starts a subprocess. -/
theorem entry_failure (w : World) (args : arguments) :
    ((prompt (envEntry w args).entry (envEntry w args).err w.Stdin).1.2 ≠ none ↔
      args.entry = [] ∧ w.Getenv ASKPW_ENV = [] ∧ '\n' ∉ w.Stdin) ∧
    ((parse (w.Args.drop 1) startArgs).1.action = ACTION_COMMAND →
      (prompt (envEntry w (parse (w.Args.drop 1) startArgs).1).entry
        (envEntry w (parse (w.Args.drop 1) startArgs).1).err w.Stdin).1.2 ≠ none →
      (main w).1 = 3 ∧
      ∀ ev ∈ (main w).2, (∀ name, ev ≠ Event.lookPath name) ∧
        (∀ path argv, ev ≠ Event.exec path argv)) := by
  constructor
  · rw [prompt_envEntry]
    by_cases ho : args.entry = []
    · by_cases he : w.Getenv ASKPW_ENV = []
      · by_cases hn : '\n' ∈ w.Stdin <;> simp [ho, he, hn]
      · simp [ho, he]
    · simp [ho]
  · intro hact herr
    rw [(envEntry_fields w _).2.1] at herr
    have hq := prompt_events (envEntry w (parse (w.Args.drop 1) startArgs).1).entry
      (parse (w.Args.drop 1) startArgs).1.err w.Stdin
    rcases main_cases w with ⟨ha, -⟩ | ⟨ha, -⟩ | ⟨-, -, hc⟩
    · rw [hact] at ha; exact absurd ha (by decide)
    · rw [hact] at ha; exact absurd ha (by decide)
    · rcases hc with ⟨d, e, -, hm⟩ | ⟨hp, -⟩ | ⟨entry, hp, -, -⟩
      · rw [hm]
        refine ⟨rfl, ?_⟩
        intro ev hev
        simp only [List.mem_append, warn, List.mem_singleton] at hev
        rcases hev with hev | hev
        · rcases hq ev hev with rfl | rfl <;> simp
        · subst hev; simp
      · rw [hp] at herr; exact absurd rfl herr
      · rw [hp] at herr; exact absurd rfl herr

/-- Witness for C16 on the run with no tokens and the unterminated input `alice`. -/
theorem entry_failure_witness :
    (parse ((sampleWorld [] "alice".toList).Args.drop 1) startArgs).1.action = ACTION_COMMAND ∧
    (main (sampleWorld [] "alice".toList)).1 = 3 :=
  ⟨by decide,
   ((entry_failure (sampleWorld [] "alice".toList) startArgs).2 (by decide) (by decide)).1⟩

/-- C17: the error-prompt flag does not influence the run: two runs in the same
environment whose parsed arguments agree in every field but the error-prompt flag have
the same exit code and the same trace, hence the same prompt stream and the same
subprocess argument vector; `prompt` returns the same entry and has the same effects
for both values of the flag, and it writes the prompt text to the error stream only. -/
theorem stderr_flag_irrelevant (w₁ w₂ : World)
    (henv : w₁.Getenv = w₂.Getenv) (hin : w₁.Stdin = w₂.Stdin)
    (hlook : w₁.LookPath = w₂.LookPath) (hrun : w₁.Run = w₂.Run)
    (hact : (parse (w₁.Args.drop 1) startArgs).1.action =
      (parse (w₂.Args.drop 1) startArgs).1.action)
    (hbin : (parse (w₁.Args.drop 1) startArgs).1.bin = (parse (w₂.Args.drop 1) startArgs).1.bin)
    (hentry : (parse (w₁.Args.drop 1) startArgs).1.entry =
      (parse (w₂.Args.drop 1) startArgs).1.entry)
    (hpass : (parse (w₁.Args.drop 1) startArgs).1.pass =
      (parse (w₂.Args.drop 1) startArgs).1.pass) :
    main w₁ = main w₂ ∧
    (∀ current stdin, prompt current true stdin = prompt current false stdin) ∧
    (∀ current onErr stdin, ∀ ev ∈ (prompt current onErr stdin).2,
      ev = Event.stderr PROMPT_TEXT ∨ ev = Event.readStdin) := by
  refine ⟨?_, fun c s => prompt_flag c true s, prompt_events⟩
  rw [main_eq w₁, main_eq w₂, hact, hbin, hentry, hpass, henv, hin, hlook, hrun]

/-- Witness for C17: the runs with tokens `--stderr x` and `x` on the input `alice`. -/
theorem stderr_flag_irrelevant_witness :
    (parse ((sampleWorld ["--stderr".toList, "x".toList] "alice\n".toList).Args.drop 1)
        startArgs).1.err ≠
      (parse ((sampleWorld ["x".toList] "alice\n".toList).Args.drop 1) startArgs).1.err ∧
    main (sampleWorld ["--stderr".toList, "x".toList] "alice\n".toList) =
      main (sampleWorld ["x".toList] "alice\n".toList) :=
  ⟨by decide,
   (stderr_flag_irrelevant (sampleWorld ["--stderr".toList, "x".toList] "alice\n".toList)
      (sampleWorld ["x".toList] "alice\n".toList) rfl rfl rfl rfl (by decide) (by decide)
      (by decide) (by decide)).1⟩

end Askpw
